import Mathlib

/-!
Verification development for the MIN-format codec
(`dedupe_files.py` — encoder, `decompress_min.py` — decoder).

Modelling conventions (shallow embedding):
* Python `str` values are modelled by their UTF-8 byte sequences
  (`Bytes := List Nat`, each entry a byte value `< 256`); `s.encode("utf-8")`
  is therefore the identity and `bytes.decode("utf-8")` is the identity on the
  image of the encoder.  Decoding of arbitrary (possibly invalid) UTF-8 only
  matters for the input-file reader, where a real UTF-8 validator is used.
* Byte buffers (`io.BytesIO`) are modelled as `List Nat` streams; `f.read(1)[0]`
  fails (Python `IndexError`) on an exhausted stream, while `f.read(n)` returns
  up to `n` bytes without failing, exactly like `BytesIO.read`.
* Python `float` values are modelled as exact decimal numbers
  (`Dec`, a canonical `m / 10 ^ e`).  Every numeric computation exercised by a
  theorem in this file stays on small integer values, where IEEE-754 binary64
  arithmetic is exact and agrees with the exact model.
* Fallible code returns `Except String α`; the error strings follow the Python
  exception messages (the outer `Failed to decompress:` re-wrapping is not
  reproduced).
-/

/-- A Python byte string / UTF-8 encoded text, one `Nat` (< 256) per byte. -/
abbrev Bytes := List Nat

namespace MinFmt

/-! ## Varint codec (`write_varint` / `read_varint`) -/

/-- Loop of `write_varint` (`dedupe_files.py` lines 27-30): emit 7-bit groups,
least significant first, setting the top bit on every group but the last.
The structural `fuel` argument only bounds the recursion; `fuel = value`
always suffices because the value shrinks by a factor 128 each step. -/
def writeVarintAux : Nat → Nat → List Nat
  | 0, value => [value % 128]
  | fuel + 1, value =>
    if value < 128 then [value]
    else (value % 128 + 128) :: writeVarintAux fuel (value / 128)

/-- `write_varint` on a non-negative value (`dedupe_files.py` lines 23-30). -/
def writeVarintNat (value : Nat) : List Nat :=
  writeVarintAux value value

/-- `write_varint` (`dedupe_files.py` lines 23-30): a negative input is
clamped to zero before the emit loop. -/
def writeVarint (value : Int) : List Nat :=
  writeVarintNat value.toNat

/-- Loop of `read_varint` (`decompress_min.py` lines 18-30).  The accumulator
update is written `acc + group * 2 ^ shift`; the source writes
`result |= (byte & 0x7F) << shift`, which coincides because the loop keeps
`acc < 2 ^ shift`, so the OR-ed bit ranges are disjoint.  An exhausted stream
reproduces Python's `IndexError` from `f.read(1)[0]`. -/
def readVarintAux : List Nat → Nat → Nat → Except String (Nat × List Nat)
  | [], _, _ => .error "IndexError"
  | b :: rest, shift, acc =>
    let acc2 := acc + b % 128 * 2 ^ shift
    if b % 256 < 128 then .ok (acc2, rest)
    else if 35 ≤ shift + 7 then .error "Varint too long"
    else readVarintAux rest (shift + 7) acc2

/-- `read_varint` (`decompress_min.py` lines 18-30 and the identical copy in
`dedupe_files.py` lines 32-44). -/
def readVarint (s : List Nat) : Except String (Nat × List Nat) :=
  readVarintAux s 0 0

/-! ## Number parsing (`is_numeric`, `int(s)`, `float(s)`)

Python `float` values are modelled as exact decimal numbers `Dec`
(value `m / 10 ^ e`, kept canonical: `e = 0` or `m` not divisible by 10).
Every numeric value exercised by a theorem below is a small integer, for
which binary64 arithmetic is exact, so the model agrees with CPython there.
The `inf`/`nan` spellings and `_` digit grouping accepted by Python's
parsers are not modelled; no claim concerns them. -/

/-- ASCII digit test. -/
def isDigit (b : Nat) : Bool := 48 ≤ b && b ≤ 57

/-- Value of a string of ASCII digits, most significant first. -/
def digitsToNat (ds : List Nat) : Nat :=
  ds.foldl (fun acc d => acc * 10 + (d - 48)) 0

/-- An exact decimal number `m / 10 ^ e`, the model of a Python float. -/
structure Dec where
  m : Int
  e : Nat
  deriving DecidableEq, Repr

/-- Canonicalise `m / 10 ^ e` by stripping common factors of 10, so that
value equality of the models coincides with Python float equality
(on the exactly-representable decimals exercised here). -/
def mkDec : Int → Nat → Dec
  | m, 0 => ⟨m, 0⟩
  | m, e + 1 => if m % 10 = 0 then mkDec (m / 10) e else ⟨m, e + 1⟩

/-- Rational value of a `Dec`, used only to state theorems. -/
def Dec.toRat (d : Dec) : ℚ := (d.m : ℚ) / 10 ^ d.e

/-- Float subtraction `float(a) - float(b)`, exact in the decimal model. -/
def decSub (x y : Dec) : Dec :=
  mkDec (x.m * 10 ^ y.e - y.m * 10 ^ x.e) (x.e + y.e)

/-- The delta guard `abs(delta) < abs(float(cell)) * 0.8`
(`dedupe_files.py` line 148), decided by exact cross-multiplication;
`0.8` is modelled as `4/5`. -/
def decLt45 (d v : Dec) : Bool :=
  5 * d.m.natAbs * 10 ^ v.e < 4 * v.m.natAbs * 10 ^ d.e

/-- Split an optional leading `+`/`-` sign. Returns (sign, rest). -/
def splitSign : Bytes → Int × Bytes
  | 43 :: r => (1, r)
  | 45 :: r => (-1, r)
  | r => (1, r)

/-- Exponent part of a float literal: optional sign then one or more digits,
consuming the whole remainder. -/
def parseExpPart (s : Bytes) : Option Int :=
  let (sgn, r) := splitSign s
  if r ≠ [] ∧ r.all isDigit then some (sgn * digitsToNat r) else none

/-- Build the decimal value `sgn * digits(ip ++ fp) * 10 ^ (ex - fp.length)`
of a parsed float literal. -/
def decOfParts (sgn : Int) (ip fp : List Nat) (ex : Int) : Dec :=
  let a : Int := sgn * digitsToNat (ip ++ fp)
  let p : Int := ex - fp.length
  if 0 ≤ p then mkDec (a * 10 ^ p.toNat) 0 else mkDec a (-p).toNat

/-- `float(s)` on a finite decimal literal: optional sign, digits with an
optional fractional part (at least one digit overall), optional exponent;
anything else fails with `ValueError`. -/
def parseDec (s : Bytes) : Option Dec :=
  let (sgn, s1) := splitSign s
  let ip := s1.takeWhile isDigit
  let s2 := s1.dropWhile isDigit
  match s2 with
  | [] => if ip = [] then none else some (decOfParts sgn ip [] 0)
  | 46 :: r =>
    let fp := r.takeWhile isDigit
    let s3 := r.dropWhile isDigit
    if ip = [] ∧ fp = [] then none
    else
      match s3 with
      | [] => some (decOfParts sgn ip fp 0)
      | 101 :: r2 => (parseExpPart r2).map (decOfParts sgn ip fp)
      | 69 :: r2 => (parseExpPart r2).map (decOfParts sgn ip fp)
      | _ => none
  | 101 :: r2 =>
    if ip = [] then none else (parseExpPart r2).map (decOfParts sgn ip [])
  | 69 :: r2 =>
    if ip = [] then none else (parseExpPart r2).map (decOfParts sgn ip [])
  | _ => none

/-- `int(s)`: optional sign then one or more digits consuming the string. -/
def parseIntBytes (s : Bytes) : Option Int :=
  let (sgn, s1) := splitSign s
  if s1 ≠ [] ∧ s1.all isDigit then some (sgn * digitsToNat s1) else none

/-- `is_numeric` (`dedupe_files.py` lines 46-54): the empty string is not
numeric, otherwise `float(s)` must parse. -/
def isNumeric (s : Bytes) : Bool :=
  if s = [] then false else (parseDec s).isSome

/-! ## Binary packing (`struct.pack`/`struct.unpack`) and number formatting -/

/-- Big-endian bytes of `n`, fixed width `w` (low bytes of `n` beyond
`2 ^ (8 w)` are truncated; callers stay in range). -/
def natToBEBytes : Nat → Nat → List Nat
  | 0, _ => []
  | w + 1, n => natToBEBytes w (n / 256) ++ [n % 256]

/-- Value of big-endian bytes. -/
def beBytesToNat (bs : List Nat) : Nat :=
  bs.foldl (fun acc b => acc * 256 + b % 256) 0

/-- `struct.pack` of a signed big-endian integer of width `w` bytes
(two's complement).  Integers outside the int64 range would make
`struct.pack('>q', i)` raise in Python; no statement below involves them
and the pack is modelled as reduction mod `2 ^ (8 w)`. -/
def packInt (w : Nat) (i : Int) : List Nat :=
  natToBEBytes w (i.emod (2 ^ (8 * w))).toNat

/-- `struct.unpack` of a signed big-endian integer of width `w` bytes. -/
def unpackInt (w : Nat) (bs : List Nat) : Int :=
  let n := beBytesToNat bs
  if n < 2 ^ (8 * w - 1) then (n : Int) else (n : Int) - 2 ^ (8 * w)

/-- ASCII decimal digits of `n` (fuel-structured so the kernel can
evaluate it; `fuel = n` always suffices). -/
def natDigitsAux : Nat → Nat → List Nat
  | 0, n => [48 + n % 10]
  | fuel + 1, n => if n < 10 then [48 + n] else natDigitsAux fuel (n / 10) ++ [48 + n % 10]

/-- `str(n)` for a natural number. -/
def natToDigits (n : Nat) : List Nat := natDigitsAux n n

/-- `str(i)` for an integer. -/
def intToBytes (i : Int) : Bytes :=
  if i < 0 then 45 :: natToDigits i.natAbs else natToDigits i.natAbs

/-- Round `a / b` to the nearest integer, ties to even (IEEE semantics). -/
def roundRatEven (a b : Nat) : Nat :=
  let q := a / b
  let r := a % b
  if 2 * r < b then q
  else if b < 2 * r then q + 1
  else if q % 2 = 0 then q else q + 1

/-- `struct.pack('>d', v)`: the IEEE-754 binary64 big-endian encoding of the
decimal value, round to nearest, ties to even.  No theorem below evaluates
this function (every float byte path of the source is unreachable or
unexercised by the claims); it is included so the cell serializer is
complete. -/
def floatPack (d : Dec) : List Nat :=
  if d.m = 0 then [0, 0, 0, 0, 0, 0, 0, 0]
  else
    let sgn : Nat := if d.m < 0 then 1 else 0
    let n := d.m.natAbs
    let den := 10 ^ d.e
    -- binade: e2 with 2 ^ e2 ≤ n / den < 2 ^ (e2 + 1)
    let k : Int := (Nat.log2 n : Int) - (Nat.log2 den : Int)
    let geK : Int → Bool := fun j =>
      den * 2 ^ j.toNat ≤ n * 2 ^ (-j).toNat
    let e2 : Int := if geK (k + 1) then k + 1 else if geK k then k else k - 1
    -- mantissa: round (n / den) * 2 ^ (52 - e2) to an integer
    let x : Int := 52 - e2
    let m53 := roundRatEven (n * 2 ^ x.toNat) (den * 2 ^ (-x).toNat)
    let (m53, e2) := if m53 = 2 ^ 53 then (2 ^ 52, e2 + 1) else (m53, e2)
    let bits :=
      if e2 > 1023 then sgn * 2 ^ 63 + 2047 * 2 ^ 52
      else if e2 < -1022 then
        -- subnormal range: value * 2 ^ 1074 rounded
        let msub := roundRatEven (n * 2 ^ 1074) den
        if 2 ^ 52 ≤ msub then sgn * 2 ^ 63 + 2 ^ 52 + (msub - 2 ^ 52)
        else sgn * 2 ^ 63 + msub
      else sgn * 2 ^ 63 + (e2 + 1023).toNat * 2 ^ 52 + (m53 - 2 ^ 52)
    natToBEBytes 8 bits

/-- `struct.unpack('>d', bs)` on a finite binary64 value, as an exact
decimal.  Non-finite payloads (`inf`/`nan`) are outside the decimal model
and yield `none`; the enclosing reader turns that into an error, which no
encoder-produced container and no statement below can reach. -/
def floatUnpack (bs : List Nat) : Option Dec :=
  let bits := beBytesToNat bs
  let sgn : Int := if bits / 2 ^ 63 % 2 = 1 then -1 else 1
  let expf : Nat := bits / 2 ^ 52 % 2 ^ 11
  let frac : Nat := bits % 2 ^ 52
  if expf = 2047 then none
  else
    let m2 : Int := sgn * (if expf = 0 then (frac : Int) else (frac : Int) + 2 ^ 52)
    let p : Int := (if expf = 0 then 1 else (expf : Int)) - 1023 - 52
    if 0 ≤ p then some (mkDec (m2 * 2 ^ p.toNat) 0)
    else some (mkDec (m2 * 5 ^ (-p).toNat) (-p).toNat)

/-- Decimal rendering of a non-integral `Dec`: sign, then the digits of
`|m|` zero-padded to at least `e + 1` digits with a point before the last
`e` of them.  This matches `str(float)` whenever the float is exactly a
short decimal (all values this file computes with); the shortest-repr
algorithm of CPython for other floats is not reproduced, and nothing here
exercises it. -/
def formatDecFrac (d : Dec) : Bytes :=
  let ds := natToDigits d.m.natAbs
  let ds := List.replicate (d.e + 1 - ds.length) 48 ++ ds
  let intPart := ds.take (ds.length - d.e)
  let fracPart := ds.drop (ds.length - d.e)
  (if d.m < 0 then [45] else []) ++ intPart ++ [46] ++ fracPart

/-- The decoder's float rendering (`decompress_min.py` lines 49-53, 75-79):
an integral value is printed via `str(int(val))`, others via `str(val)`.
A canonical `Dec` is integral exactly when `e = 0`. -/
def formatDec (d : Dec) : Bytes :=
  if d.e = 0 then intToBytes d.m else formatDecFrac d

/-- The width tag chosen by `encode_number` (`dedupe_files.py` 56-73). -/
inductive NumTag
  | int8 | int16 | int32 | int64 | float
  deriving DecidableEq, Repr

/-- `encode_number` (`dedupe_files.py` lines 56-73): strings containing a
point or exponent letter parse as float64 and pack to 8 bytes; other
strings parse as int and pack to the smallest signed width that fits. -/
def encodeNumber (s : Bytes) : Option (NumTag × List Nat) :=
  if s.contains 46 || s.contains 101 || s.contains 69 then
    (parseDec s).map fun d => (NumTag.float, floatPack d)
  else
    (parseIntBytes s).map fun i =>
      if -128 ≤ i ∧ i ≤ 127 then (NumTag.int8, packInt 1 i)
      else if -32768 ≤ i ∧ i ≤ 32767 then (NumTag.int16, packInt 2 i)
      else if -2147483648 ≤ i ∧ i ≤ 2147483647 then (NumTag.int32, packInt 4 i)
      else (NumTag.int64, packInt 8 i)

/-! ## Reading and normalising the input file (`dedupe_file`, line mode) -/

/-- ASCII whitespace stripped by `str.strip()` (the rare non-ASCII Unicode
whitespace characters are not modelled; no claim involves them). -/
def isSpaceByte (b : Nat) : Bool :=
  b == 32 || b == 9 || b == 10 || b == 13 || b == 11 || b == 12

/-- `s.strip()`. -/
def stripBytes (s : Bytes) : Bytes :=
  ((s.dropWhile isSpaceByte).reverse.dropWhile isSpaceByte).reverse

/-- Keep the first occurrence of each element, in first-seen order
(the `seen` set of `dedupe_file`). -/
def dedupeKeepFirst [DecidableEq α] : List α → List α → List α
  | _, [] => []
  | seen, x :: xs =>
    if x ∈ seen then dedupeKeepFirst seen xs
    else x :: dedupeKeepFirst (x :: seen) xs

/-- Universal-newline translation done by text-mode `open`:
`\r\n` and bare `\r` both become `\n`. -/
def translateNewlines : Bytes → Bytes
  | [] => []
  | 13 :: 10 :: r => 10 :: translateNewlines r
  | 13 :: r => 10 :: translateNewlines r
  | b :: r => b :: translateNewlines r

/-- Line-mode normalisation of decoded text (`dedupe_files.py` lines
231-241): strip each line, drop the now-empty ones, keep only first
occurrences. -/
def normalizeLines (text : Bytes) : List Bytes :=
  dedupeKeepFirst []
    ((((translateNewlines text).splitOn 10).map stripBytes).filter (· ≠ []))

/-- UTF-8 continuation byte. -/
def utf8Cont (b : Nat) : Bool := 128 ≤ b && b ≤ 191

/-- Strict UTF-8 validity (RFC 3629), the success condition of
`bytes.decode("utf-8")`. -/
def utf8Valid : Bytes → Bool
  | [] => true
  | b :: r =>
    if b < 128 then utf8Valid r
    else if 194 ≤ b && b ≤ 223 then
      match r with
      | c1 :: r2 => utf8Cont c1 && utf8Valid r2
      | [] => false
    else if b == 224 then
      match r with
      | c1 :: c2 :: r2 => (160 ≤ c1 && c1 ≤ 191) && utf8Cont c2 && utf8Valid r2
      | _ => false
    else if (225 ≤ b && b ≤ 236) || b == 238 || b == 239 then
      match r with
      | c1 :: c2 :: r2 => utf8Cont c1 && utf8Cont c2 && utf8Valid r2
      | _ => false
    else if b == 237 then
      match r with
      | c1 :: c2 :: r2 => (128 ≤ c1 && c1 ≤ 159) && utf8Cont c2 && utf8Valid r2
      | _ => false
    else if b == 240 then
      match r with
      | c1 :: c2 :: c3 :: r2 =>
        (144 ≤ c1 && c1 ≤ 191) && utf8Cont c2 && utf8Cont c3 && utf8Valid r2
      | _ => false
    else if 241 ≤ b && b ≤ 243 then
      match r with
      | c1 :: c2 :: c3 :: r2 =>
        utf8Cont c1 && utf8Cont c2 && utf8Cont c3 && utf8Valid r2
      | _ => false
    else if b == 244 then
      match r with
      | c1 :: c2 :: c3 :: r2 =>
        (128 ≤ c1 && c1 ≤ 143) && utf8Cont c2 && utf8Cont c3 && utf8Valid r2
      | _ => false
    else false

/-- `bytes.decode("latin-1")`, expressed in the strings-as-UTF-8 model:
each byte becomes the UTF-8 encoding of the code point with its value.
This decode accepts every byte sequence. -/
def latin1ToUtf8 (bs : Bytes) : Bytes :=
  (bs.map fun b => if b < 128 then [b] else [192 + b / 64, 128 + b % 64]).flatten

/-- The two text encodings `dedupe_file` tries. -/
inductive PyEncoding | utf8 | latin1
  deriving DecidableEq, Repr

/-- `open(filepath, encoding=...)` followed by reading the text:
UTF-8 fails with `UnicodeDecodeError` on invalid input, latin-1 accepts
every byte sequence. -/
def decodeFileText : PyEncoding → Bytes → Except String Bytes
  | .utf8, bs => if utf8Valid bs then .ok bs else .error "UnicodeDecodeError"
  | .latin1, bs => .ok (latin1ToUtf8 bs)

/-- `dedupe_file` in line mode (`dedupe_files.py` lines 208-246) including
the encoding retry of lines 242-244, unrolled once: a `UnicodeDecodeError`
under UTF-8 restarts the whole read with latin-1.  The final fallback arm
models the `except` clause falling through to `return unique_rows` when the
retried encoding also failed; latin-1 never fails, so it is unreachable. -/
def dedupeFileLines (file : Bytes) : Except String (List Bytes) :=
  match decodeFileText .utf8 file with
  | .ok text => .ok (normalizeLines text)
  | .error _ =>
    match decodeFileText .latin1 file with
    | .ok text => .ok (normalizeLines text)
    | .error _ => .ok []

/-! ## `optimize_csv`: drop columns that are empty in every row -/

/-- `optimize_csv` (`dedupe_files.py` lines 248-271). -/
def optimizeCsv (rows : List (List Bytes)) : List (List Bytes) :=
  if rows = [] then rows
  else
    let numCols := (rows.map List.length).foldl max 0
    let emptyCols :=
      (List.range numCols).filter fun c => rows.all fun row => row.getD c [] = []
    if emptyCols = [] then rows
    else rows.map fun row =>
      (row.enum.filter fun p => p.1 ∉ emptyCols).map Prod.snd

/-! ## Numeric/Delta analyzer (`apply_delta_encoding`) -/

/-- A cell of the delta-transformed content: either the original string or
the `('delta', float)` tuple produced by `apply_delta_encoding`. -/
inductive DCell
  | str (s : Bytes)
  | delta (d : Dec)
  deriving DecidableEq, Repr

/-- Numeric cells of column `colIdx` among the first `sampleSize` rows
(`dedupe_files.py` lines 116-130).  The `try: float(cell) - float(prev_val)
except: numeric_count = 0; break` arm of the source is unreachable —
both operands already passed `is_numeric`, and float subtraction never
raises in Python — so the count is simply the number of sampled rows whose
cell at this column exists and is numeric. -/
def sampleNumericCount (data : List (List Bytes)) (sampleSize colIdx : Nat) : Nat :=
  ((data.take sampleSize).filter fun row =>
    colIdx < row.length && isNumeric (row.getD colIdx [])).length

/-- Column classification (`dedupe_files.py` lines 110-132).  The Python
test `numeric_count >= sample_size * 0.8` is modelled by the exact
`4 * sampleSize ≤ 5 * count`; for `sampleSize ≤ 100` the two agree, because
`sampleSize * 0.8` rounds to a binary64 within `2⁻⁴⁵` of the exact value
and the count is an integer. -/
def detectNumericCols (data : List (List Bytes)) : List Nat :=
  let numCols := (data.map List.length).foldl max 0
  let sampleSize := min 100 data.length
  (List.range numCols).filter fun c =>
    4 * sampleSize ≤ 5 * sampleNumericCount data sampleSize c

/-- Per-cell delta rule (`dedupe_files.py` lines 143-155): in a numeric
column, with a previous row that is non-empty (Python truthiness of
`prev_row`) and long enough, and both cells numeric, store the difference
when its magnitude is below 0.8 of the cell's own; otherwise keep the cell.
The wildcard arm mirrors the `except` fallback of the source. -/
def deltaCell (cols : List Nat) :
    Option (List Bytes) → Nat → Bytes → DCell
  | none, _, cell => .str cell
  | some p, c, cell =>
    if c ∈ cols ∧ p ≠ [] ∧ c < p.length ∧
        isNumeric cell ∧ isNumeric (p.getD c []) then
      match parseDec cell, parseDec (p.getD c []) with
      | some v, some q =>
        if decLt45 (decSub v q) v then .delta (decSub v q) else .str cell
      | _, _ => .str cell
    else .str cell

/-- Row loop of `apply_delta_encoding` (lines 138-157): `prev_row` is the
original (pre-transform) previous row. -/
def applyDeltaGo (cols : List Nat) :
    Option (List Bytes) → List (List Bytes) → List (List DCell)
  | _, [] => []
  | prev, row :: rest =>
    (row.enum.map fun p => deltaCell cols prev p.1 p.2) ::
      applyDeltaGo cols (some row) rest

/-- `apply_delta_encoding` for row-mode data (`dedupe_files.py` lines
105-159); empty data or no numeric columns return the content unchanged. -/
def applyDeltaEncoding (data : List (List Bytes)) :
    List (List DCell) × List Nat :=
  if data = [] then (data.map (List.map .str), [])
  else
    let cols := detectNumericCols data
    if cols = [] then (data.map (List.map .str), [])
    else (applyDeltaGo cols none data, cols)

/-! ## Run-length encoder (`apply_run_length_encoding`) -/

/-- An RLE item: `('data', v)` or `('repeat', k, v)`. -/
inductive RLEItem (α : Type)
  | data (v : α)
  | rep (k : Nat) (v : α)
  deriving DecidableEq, Repr

/-- Emit the pending run (`count > 1` becomes a repeat item). -/
def rleFlush (prev : α) (count : Nat) : RLEItem α :=
  if 1 < count then .rep count prev else .data prev

/-- Scan loop of `apply_run_length_encoding` (`dedupe_files.py` lines
161-206; the CSV and line branches are the same algorithm). -/
def rleGo [DecidableEq α] (prev : α) (count : Nat) : List α → List (RLEItem α)
  | [] => [rleFlush prev count]
  | x :: xs =>
    if x = prev then rleGo prev (count + 1) xs
    else rleFlush prev count :: rleGo x 1 xs

/-- `apply_run_length_encoding`. -/
def applyRLE [DecidableEq α] : List α → List (RLEItem α)
  | [] => []
  | x :: xs => rleGo x 1 xs

/-- Canonical maximal-run decomposition, used to state what the RLE scan
produces: adjacent runs carry different values, every count is ≥ 1, and
concatenating the runs restores the list. -/
def runs [DecidableEq α] : List α → List (Nat × α)
  | [] => []
  | x :: xs =>
    match runs xs with
    | [] => [(1, x)]
    | (k, y) :: rest =>
      if x = y then (k + 1, y) :: rest else (1, x) :: (k, y) :: rest

/-- The decoder's expansion of RLE items (`decompress_min.py` lines
141-171): a repeat item is emitted `count` times, a literal once. -/
def expandRLE (items : List (RLEItem α)) : List α :=
  (items.map fun it =>
    match it with
    | .data v => [v]
    | .rep k v => List.replicate k v).flatten

/-! ## Dictionary builder (`build_dictionary`) -/

/-- Cell collection of the CSV branch (`dedupe_files.py` lines 80-85):
truthy cells are counted, but a `('delta', ...)` tuple — present whenever
delta encoding fired, since `save_min_format` builds the dictionary from
the post-delta content — hits `cell.encode('utf-8')` and raises. -/
def collectCells : List DCell → Except String (List Bytes)
  | [] => .ok []
  | .str s :: rest =>
    if s = [] then collectCells rest else (collectCells rest).map (s :: ·)
  | .delta _ :: _ =>
    .error "AttributeError: tuple object has no attribute encode"

/-- Row-major cell collection over the whole content. -/
def collectRowCells : List (List DCell) → Except String (List Bytes)
  | [] => .ok []
  | row :: rest => do
    let a ← collectCells row
    let b ← collectRowCells rest
    .ok (a ++ b)

/-- Stable insertion keeping strictly-greater counts in front: later keys
land after earlier keys of equal count, matching the stable
descending-frequency order of `Counter.most_common()`. -/
def insertByCountDesc (cnt : Bytes → Nat) (x : Bytes) : List Bytes → List Bytes
  | [] => [x]
  | y :: ys =>
    if cnt y < cnt x then x :: y :: ys else y :: insertByCountDesc cnt x ys

/-- Keys in stable descending-count order (`counter.most_common()`;
`Counter` iterates keys in first-insertion order and Python's sort is
stable). -/
def sortByCountDesc (cnt : Bytes → Nat) (keys : List Bytes) : List Bytes :=
  keys.foldl (fun acc k => insertByCountDesc cnt k acc) []

/-- Dictionary from the occurrence list (`dedupe_files.py` lines 93-103):
iterate `most_common()`, keep a string occurring twice or more, or once
with UTF-8 byte length above 6; positions in the resulting list are the
dense indices. -/
def dictFromOcc (occ : List Bytes) : List Bytes :=
  (sortByCountDesc (occ.count ·) (dedupeKeepFirst [] occ)).filter fun s =>
    2 ≤ occ.count s || (occ.count s == 1 && 6 < s.length)

/-- `build_dictionary` on row-mode (post-delta) content. -/
def buildDictionaryRows (data : List (List DCell)) : Except String (List Bytes) :=
  (collectRowCells data).map dictFromOcc

/-- `build_dictionary` on line-mode content (`dedupe_files.py` lines
86-90): lines are always strings, so this branch cannot raise. -/
def buildDictionaryLines (data : List Bytes) : List Bytes :=
  dictFromOcc (data.filter (· ≠ []))

/-! ## Cell serializer (`_write_cell`) and container encoder (`save_min_format`) -/

/-- Tag byte of a numeric width (`_write_cell`, `dedupe_files.py` 382-397). -/
def numTagByte : NumTag → Nat
  | .int8 => 248
  | .int16 => 249
  | .int32 => 250
  | .int64 => 251
  | .float => 252

/-- `_write_cell` (`dedupe_files.py` lines 365-410): empty cell, delta
tuple, numeric, dictionary reference, raw string — in that priority
order.  The dictionary is the ordered entry list; `dictionary[cell]` is the
position of the cell in it. -/
def writeCell (dict : List Bytes) (cell : DCell) : List Nat :=
  match cell with
  | .delta d => 247 :: floatPack d
  | .str s =>
    if s = [] then [1]
    else
      match encodeNumber s with
      | some (tag, payload) => numTagByte tag :: payload
      | none =>
        match dict.indexOf? s with
        | some idx => 255 :: writeVarintNat idx
        | none => 0 :: writeVarintNat s.length ++ s

/-- Serialised row payload: varint column count, then each cell
(`dedupe_files.py` lines 333-335 / 343-345). -/
def rowPayload (dict : List Bytes) (row : List DCell) : List Nat :=
  writeVarintNat row.length ++ (row.map (writeCell dict)).flatten

/-- One RLE item of the row-mode payload: marker byte `0xFE`/`0xFD`, the
repeat count when present, then the row (`dedupe_files.py` lines 325-347). -/
def itemBytesRows (dict : List Bytes) : RLEItem (List DCell) → List Nat
  | .rep k row => 254 :: writeVarintNat k ++ rowPayload dict row
  | .data row => 253 :: rowPayload dict row

/-- One RLE item of the line-mode payload. -/
def itemBytesLines (dict : List Bytes) : RLEItem Bytes → List Nat
  | .rep k line => 254 :: writeVarintNat k ++ writeCell dict (.str line)
  | .data line => 253 :: writeCell dict (.str line)

/-- The 6-byte magic constant `b"MINFMT"`. -/
def magicBytes : List Nat := [77, 73, 78, 70, 77, 84]

/-- Dictionary section: varint size, then varint length + bytes per entry
in index order (`dedupe_files.py` lines 314-320). -/
def dictSection (dict : List Bytes) : List Nat :=
  writeVarintNat dict.length ++
    (dict.map fun s => writeVarintNat s.length ++ s).flatten

/-- `save_min_format` for a line-mode file (`dedupe_files.py` lines
273-347, `is_csv = False` branches), producing the buffer handed to LZMA
(the external compressor is out of scope).  Line mode skips `optimize_csv`
and delta encoding, writes content kind 0 and a varint 0 in the numeric
columns position. -/
def saveMinLines (content : List Bytes) : List Nat :=
  let rleData := applyRLE content
  let dict := buildDictionaryLines content
  magicBytes ++ [2, 0] ++ writeVarintNat 0 ++ dictSection dict ++
    writeVarintNat rleData.length ++
    (rleData.map (itemBytesLines dict)).flatten

/-- `save_min_format` for a row-mode file (`dedupe_files.py` lines 273-347,
`is_csv = True` branches): `optimize_csv`, then delta encoding, then RLE;
the dictionary is built from the post-delta content and raises (so the
whole save fails and no output is written) whenever a delta tuple is
present; content kind 1 and the sorted numeric column indices are written. -/
def saveMinRows (content : List (List Bytes)) : Except String (List Nat) := do
  let content := optimizeCsv content
  let (dcontent, numericCols) := applyDeltaEncoding content
  let rleData := applyRLE dcontent
  let dict ← buildDictionaryRows dcontent
  .ok (magicBytes ++ [2, 1] ++
    writeVarintNat numericCols.length ++
    (numericCols.map writeVarintNat).flatten ++
    dictSection dict ++
    writeVarintNat rleData.length ++
    (rleData.map (itemBytesRows dict)).flatten)

/-! ## Container decoder (`decompress_min.py`) -/

/-- Decoded content: text lines or CSV rows. -/
inductive MinContent
  | lines (ls : List Bytes)
  | rows (rs : List (List Bytes))
  deriving DecidableEq, Repr

/-- `f.read(1)[0]`: fails with `IndexError` on an exhausted stream. -/
def readByte : List Nat → Except String (Nat × List Nat)
  | [] => .error "IndexError"
  | b :: r => .ok (b, r)

/-- Float addition `prev_val + delta`, exact in the decimal model. -/
def decAdd (x y : Dec) : Dec :=
  mkDec (x.m * 10 ^ y.e + y.m * 10 ^ x.e) (x.e + y.e)

/-- `_read_cell` (`decompress_min.py` lines 32-81).  `f.read(n)` for a
string payload returns up to `n` bytes (BytesIO short-read), while the
fixed-width `struct.unpack` payloads require the full width.  The delta
branch resolves against the previous decoded row when the source's
`prev_row and col_idx < len(prev_row) and is_numeric_col` test passes,
falling back to printing the raw offset when the previous value fails to
parse (the source's `except`) or the test fails. -/
def readCellV2 (dict : List Bytes) (isNumCol : Bool)
    (prevRow : Option (List Bytes)) (colIdx : Nat) (s : List Nat) :
    Except String (Bytes × List Nat) := do
  let (flag, s) ← readByte s
  if flag = 0 then do
    let (len, s) ← readVarint s
    .ok (s.take len, s.drop len)
  else if flag = 1 then .ok ([], s)
  else if flag = 247 then
    if 8 ≤ s.length then
      match floatUnpack (s.take 8) with
      | none => .error "nonfinite float payload (outside the decimal model)"
      | some d =>
        let rest := s.drop 8
        match prevRow with
        | some p =>
          if p ≠ [] ∧ colIdx < p.length ∧ isNumCol = true then
            match parseDec (p.getD colIdx []) with
            | some pv => .ok (formatDec (decAdd pv d), rest)
            | none => .ok (formatDec d, rest)
          else .ok (formatDec d, rest)
        | none => .ok (formatDec d, rest)
    else .error "struct.error"
  else if flag = 255 then do
    let (idx, s) ← readVarint s
    match dict.get? idx with
    | some v => .ok (v, s)
    | none => .error "KeyError"
  else if flag = 248 then
    if 1 ≤ s.length then .ok (intToBytes (unpackInt 1 (s.take 1)), s.drop 1)
    else .error "struct.error"
  else if flag = 249 then
    if 2 ≤ s.length then .ok (intToBytes (unpackInt 2 (s.take 2)), s.drop 2)
    else .error "struct.error"
  else if flag = 250 then
    if 4 ≤ s.length then .ok (intToBytes (unpackInt 4 (s.take 4)), s.drop 4)
    else .error "struct.error"
  else if flag = 251 then
    if 8 ≤ s.length then .ok (intToBytes (unpackInt 8 (s.take 8)), s.drop 8)
    else .error "struct.error"
  else if flag = 252 then
    if 8 ≤ s.length then
      match floatUnpack (s.take 8) with
      | none => .error "OverflowError"
      | some d => .ok (formatDec d, s.drop 8)
    else .error "struct.error"
  else .error "Unknown cell encoding flag"

/-- Cell loop for one version-2 row (`decompress_min.py` lines 148-150 and
165-167): `prev_row` is the previously decoded row, shared by the whole
row. -/
def readRowCellsV2 (dict : List Bytes) (numericCols : List Nat)
    (prevRow : Option (List Bytes)) :
    Nat → Nat → List Nat → Except String (List Bytes × List Nat)
  | 0, _, s => .ok ([], s)
  | n + 1, colIdx, s => do
    let (cell, s) ← readCellV2 dict (decide (colIdx ∈ numericCols)) prevRow colIdx s
    let (rest, s) ← readRowCellsV2 dict numericCols prevRow n (colIdx + 1) s
    .ok (cell :: rest, s)

/-- Version-2 row-mode item loop (`decompress_min.py` lines 138-173).
A repeat item reads the row once (deltas resolved against `content[-1]`)
and appends `count` copies of the resolved row. -/
def readItemsRowsV2 (dict : List Bytes) (numericCols : List Nat) :
    Nat → List (List Bytes) → List Nat →
    Except String (List (List Bytes) × List Nat)
  | 0, content, s => .ok (content, s)
  | n + 1, content, s => do
    let (marker, s) ← readByte s
    if marker = 254 then do
      let (count, s) ← readVarint s
      let (colCount, s) ← readVarint s
      let (row, s) ← readRowCellsV2 dict numericCols content.getLast? colCount 0 s
      readItemsRowsV2 dict numericCols n (content ++ List.replicate count row) s
    else if marker = 253 then do
      let (colCount, s) ← readVarint s
      let (row, s) ← readRowCellsV2 dict numericCols content.getLast? colCount 0 s
      readItemsRowsV2 dict numericCols n (content ++ [row]) s
    else .error "Unknown data marker"

/-- Version-2 line-mode item loop (`decompress_min.py` lines 138-173,
`else` branches). -/
def readItemsLinesV2 (dict : List Bytes) :
    Nat → List Bytes → List Nat → Except String (List Bytes × List Nat)
  | 0, content, s => .ok (content, s)
  | n + 1, content, s => do
    let (marker, s) ← readByte s
    if marker = 254 then do
      let (count, s) ← readVarint s
      let (line, s) ← readCellV2 dict false none 0 s
      readItemsLinesV2 dict n (content ++ List.replicate count line) s
    else if marker = 253 then do
      let (line, s) ← readCellV2 dict false none 0 s
      readItemsLinesV2 dict n (content ++ [line]) s
    else .error "Unknown data marker"

/-- Version-1 cell read (`decompress_min.py` lines 184-191 / 194-201):
`0xFF` is a dictionary reference; *any* other flag byte is discarded and
the following varint is read as a raw-string length. -/
def readCellV1 (dict : List Bytes) (s : List Nat) :
    Except String (Bytes × List Nat) := do
  let (flag, s) ← readByte s
  if flag = 255 then do
    let (idx, s) ← readVarint s
    match dict.get? idx with
    | some v => .ok (v, s)
    | none => .error "KeyError"
  else do
    let (len, s) ← readVarint s
    .ok (s.take len, s.drop len)

/-- Cell loop for one version-1 row. -/
def readRowCellsV1 (dict : List Bytes) :
    Nat → List Nat → Except String (List Bytes × List Nat)
  | 0, s => .ok ([], s)
  | n + 1, s => do
    let (cell, s) ← readCellV1 dict s
    let (rest, s) ← readRowCellsV1 dict n s
    .ok (cell :: rest, s)

/-- Version-1 row loop (`decompress_min.py` lines 179-192). -/
def readRowsV1 (dict : List Bytes) :
    Nat → List (List Bytes) → List Nat →
    Except String (List (List Bytes) × List Nat)
  | 0, content, s => .ok (content, s)
  | n + 1, content, s => do
    let (colCount, s) ← readVarint s
    let (row, s) ← readRowCellsV1 dict colCount s
    readRowsV1 dict n (content ++ [row]) s

/-- Version-1 line loop (`decompress_min.py` lines 179, 193-201). -/
def readLinesV1 (dict : List Bytes) :
    Nat → List Bytes → List Nat → Except String (List Bytes × List Nat)
  | 0, content, s => .ok (content, s)
  | n + 1, content, s => do
    let (line, s) ← readCellV1 dict s
    readLinesV1 dict n (content ++ [line]) s

/-- Dictionary section read (`decompress_min.py` lines 125-130). -/
def readDictLoop : Nat → List Bytes → List Nat →
    Except String (List Bytes × List Nat)
  | 0, acc, s => .ok (acc, s)
  | n + 1, acc, s => do
    let (len, s) ← readVarint s
    readDictLoop n (acc ++ [s.take len]) (s.drop len)

/-- Numeric-column indices read (`decompress_min.py` lines 116-119). -/
def readNumericCols : Nat → List Nat → List Nat →
    Except String (List Nat × List Nat)
  | 0, acc, s => .ok (acc, s)
  | n + 1, acc, s => do
    let (c, s) ← readVarint s
    readNumericCols n (acc ++ [c]) s

/-- `decompress_min` (`decompress_min.py` lines 83-205) applied to the
decompressed buffer (the LZMA/gzip transport layer is the out-of-scope
external compressor).  Note the content-kind byte is not validated:
`is_csv = (file_type == 1)` treats every other value as line mode.
Trailing bytes after the last item are ignored, as in the source. -/
def decompressMin (bs : List Nat) : Except String (MinContent × Bool) :=
  if bs.take 6 ≠ magicBytes then .error "Invalid MIN format file"
  else do
    let s := bs.drop 6
    let (version, s) ← readByte s
    if version ≠ 1 ∧ version ≠ 2 then
      .error "Unsupported MIN format version"
    else do
      let (fileType, s) ← readByte s
      let isCsv := fileType = 1
      let (numericCols, s) ←
        if 2 ≤ version ∧ isCsv then do
          let (n, s) ← readVarint s
          readNumericCols n [] s
        else if 2 ≤ version then do
          let (_, s) ← readVarint s
          (.ok ([], s) : Except String (List Nat × List Nat))
        else .ok ([], s)
      let (dictSize, s) ← readVarint s
      let (dictionary, s) ← readDictLoop dictSize [] s
      if 2 ≤ version then do
        let (itemCount, s) ← readVarint s
        if isCsv then do
          let (content, _) ← readItemsRowsV2 dictionary numericCols itemCount [] s
          .ok (.rows content, true)
        else do
          let (content, _) ← readItemsLinesV2 dictionary itemCount [] s
          .ok (.lines content, false)
      else do
        let (rowCount, s) ← readVarint s
        if isCsv then do
          let (content, _) ← readRowsV1 dictionary rowCount [] s
          .ok (.rows content, true)
        else do
          let (content, _) ← readLinesV1 dictionary rowCount [] s
          .ok (.lines content, false)

/-! ## The version-1 container (modelled from the spec) -/

/-- Modelled from the spec: a cell of a version-1 container.  The
version-1 encoder is not part of the repository (only the decoder's
version-1 branch is); per the spec, "only Empty/RawString/DictRef were
ever written" by it. -/
inductive V1Cell
  | empty
  | raw (s : Bytes)
  | ref (i : Nat)
  deriving DecidableEq, Repr

/-- Modelled from the spec: serialized form of a version-1 cell, using the
cell-tag bytes of §4.6 (Empty = `0x01` with no payload, RawString = `0x00`
+ varint length + bytes, DictRef = `0xFF` + varint index). -/
def v1CellBytes : V1Cell → List Nat
  | .empty => [1]
  | .raw s => 0 :: writeVarintNat s.length ++ s
  | .ref i => 255 :: writeVarintNat i

/-- The string a version-1 cell stands for, given the dictionary. -/
def v1Resolve (dict : List Bytes) : V1Cell → Bytes
  | .empty => []
  | .raw s => s
  | .ref i => dict.getD i []

/-- Modelled from the spec: a version-1 row-mode container — magic,
version byte 1, kind byte 1, no NumericColumns section, the dictionary
section, a plain varint row count, then each row as varint column count
plus its cells. -/
def v1ContainerRows (dict : List Bytes) (content : List (List V1Cell)) :
    List Nat :=
  magicBytes ++ [1, 1] ++ dictSection dict ++
    writeVarintNat content.length ++
    (content.map fun row =>
      writeVarintNat row.length ++ (row.map v1CellBytes).flatten).flatten

/-- Modelled from the spec: a version-1 line-mode container — as above
with kind byte 0 and one cell per line. -/
def v1ContainerLines (dict : List Bytes) (content : List V1Cell) : List Nat :=
  magicBytes ++ [1, 0] ++ dictSection dict ++
    writeVarintNat content.length ++ (content.map v1CellBytes).flatten

/-- The line-mode layout asserted by claim C7, stated from the spec's words
("for a line-mode file no NumericColumns section is present and the
dictionary section follows the content-kind byte directly"), for comparison
with the encoder's actual output. -/
def specC7LineLayout (content : List Bytes) : List Nat :=
  let rleData := applyRLE content
  let dict := buildDictionaryLines content
  magicBytes ++ [2, 0] ++ dictSection dict ++
    writeVarintNat rleData.length ++
    (rleData.map (itemBytesLines dict)).flatten

/-- Well-formedness of a version-1 cell for the round-trip statement:
no Empty tag (see the C9 counterexample), raw strings and dictionary
indices within varint range, references in range of the dictionary. -/
def V1Cell.valid (dict : List Bytes) : V1Cell → Prop
  | .empty => False
  | .raw s => s.length < 2 ^ 35
  | .ref i => i < dict.length

instance V1Cell.validDecidable (dict : List Bytes) :
    (c : V1Cell) → Decidable (c.valid dict)
  | .empty => isFalse id
  | .raw s => inferInstanceAs (Decidable (s.length < 2 ^ 35))
  | .ref i => inferInstanceAs (Decidable (i < dict.length))

/-- The canonical maximal-run decomposition, extended at the head by a
pending run of `c` copies of `x`: the bridge between the stateful RLE scan
and `runs`. -/
def runsCons [DecidableEq α] (x : α) (c : Nat) :
    List (Nat × α) → List (Nat × α)
  | [] => [(c, x)]
  | (k, y) :: rest => if x = y then (k + c, y) :: rest else (c, x) :: (k, y) :: rest

/-! ## Theorems -/

theorem writeVarintAux_irrel (fuel : Nat) : ∀ fuel' value : Nat,
    value ≤ fuel → value ≤ fuel' →
    writeVarintAux fuel value = writeVarintAux fuel' value := by
  induction fuel with
  | zero =>
    intro fuel' value h h'
    have : value = 0 := by omega
    subst this
    cases fuel' <;> simp [writeVarintAux]
  | succ n ih =>
    intro fuel' value h h'
    cases fuel' with
    | zero =>
      have : value = 0 := by omega
      subst this
      simp [writeVarintAux]
    | succ m =>
      by_cases hv : value < 128
      · simp [writeVarintAux, hv]
      · have hd : value / 128 < value := Nat.div_lt_self (by omega) (by omega)
        simp only [writeVarintAux, if_neg hv]
        congr 1
        exact ih m (value / 128) (by omega) (by omega)

/-- Unfolding equation for `writeVarintNat` independent of the fuel. -/
theorem writeVarintNat_eq (value : Nat) :
    writeVarintNat value =
      if value < 128 then [value]
      else (value % 128 + 128) :: writeVarintNat (value / 128) := by
  by_cases hv : value < 128
  · rw [if_pos hv]
    cases value <;> simp [writeVarintNat, writeVarintAux, hv]
  · rw [if_neg hv]
    obtain ⟨n, rfl⟩ : ∃ n, value = n + 1 := ⟨value - 1, by omega⟩
    show writeVarintAux (n + 1) (n + 1) = _
    simp only [writeVarintAux, if_neg hv]
    congr 1
    exact writeVarintAux_irrel n _ _
      (by omega : (n + 1) / 128 ≤ n) (le_refl _)

/-- Key parsing lemma: reading a written varint from the head of a stream
returns the value and leaves the rest untouched, for any shift state whose
remaining capacity still fits the value. -/
theorem readVarintAux_writeVarintNat (value : Nat) (rest : List Nat)
    (shift acc : Nat) (hcap : value < 2 ^ (35 - shift)) (hsh : shift ≤ 28)
    (hmul : shift % 7 = 0) :
    readVarintAux (writeVarintNat value ++ rest) shift acc =
      .ok (acc + value * 2 ^ shift, rest) := by
  by_cases hv : value < 128
  · rw [writeVarintNat_eq, if_pos hv]
    show readVarintAux (value :: rest) shift acc = _
    simp only [readVarintAux]
    rw [if_pos (by omega : value % 256 < 128)]
    rw [Nat.mod_eq_of_lt hv]
  · rw [writeVarintNat_eq, if_neg hv]
    have hsh28 : shift < 28 := by
      rcases Nat.lt_or_ge shift 28 with h | h
      · exact h
      · exfalso
        have hs : shift = 28 := by omega
        subst hs
        norm_num at hcap
        omega
    have hcap' : value / 128 < 2 ^ (35 - (shift + 7)) := by
      rw [Nat.div_lt_iff_lt_mul (by norm_num : 0 < 128)]
      calc value < 2 ^ (35 - shift) := hcap
        _ = 2 ^ (35 - (shift + 7)) * 128 := by
            rw [show 35 - shift = (35 - (shift + 7)) + 7 by omega, pow_add]
            norm_num
    have ih := readVarintAux_writeVarintNat (value / 128) rest (shift + 7)
      (acc + value % 128 * 2 ^ shift) hcap' (by omega) (by omega)
    show readVarintAux ((value % 128 + 128) :: (writeVarintNat (value / 128) ++ rest))
      shift acc = _
    simp only [readVarintAux]
    rw [if_neg (by omega), if_neg (by omega : ¬ 35 ≤ shift + 7)]
    have hlow : (value % 128 + 128) % 128 = value % 128 := by omega
    rw [hlow, ih]
    have hx : value % 128 + 128 * (value / 128) = value := Nat.mod_add_div value 128
    congr 2
    calc acc + value % 128 * 2 ^ shift + value / 128 * 2 ^ (shift + 7)
        = acc + (value % 128 + 128 * (value / 128)) * 2 ^ shift := by
          rw [pow_add]
          ring
      _ = acc + value * 2 ^ shift := by rw [hx]
termination_by value
decreasing_by exact Nat.div_lt_self (by omega) (by omega)

/-- Round trip of the varint codec below the 35-bit cap. -/
theorem readVarint_writeVarintNat (value : Nat) (rest : List Nat)
    (h : value < 2 ^ 35) :
    readVarint (writeVarintNat value ++ rest) = .ok (value, rest) := by
  unfold readVarint
  rw [readVarintAux_writeVarintNat value rest 0 0 (by simpa using h) (by omega) (by omega)]
  simp

/-! ### Concrete evaluations refuting or evidencing claims -/

/-- Claim C1, failing input: the line-mode file `"007\n"` normalises to the
single line `"007"`; `_write_cell` tries numeric encoding before anything
else, so the cell is written as int8 `7` and decodes to `"7"`.
`decode(encode(normalize(X)))` is `["7"]`, not `normalize(X) = ["007"]`:
the codec is not reversible with respect to the normalised content. -/
theorem claim_C1_roundtrip_failure :
    normalizeLines [48, 48, 55, 10] = [[48, 48, 55]] ∧
    saveMinLines [[48, 48, 55]] =
      [77, 73, 78, 70, 77, 84, 2, 0, 0, 0, 1, 253, 248, 7] ∧
    decompressMin (saveMinLines [[48, 48, 55]]) =
      .ok (.lines [[55]], false) ∧
    (MinContent.lines [[55]] : MinContent) ≠ .lines [[48, 48, 55]] :=
  ⟨rfl, rfl, rfl, by decide⟩

/-- Claim C4, failing input: the single numeric column `10, 12, 11, 15` is
classified numeric-eligible and delta encoding fires, but
`save_min_format` then feeds the post-delta content (holding
`('delta', 2.0)` tuples) to `build_dictionary`, whose
`cell.encode('utf-8')` raises `AttributeError`: the encode fails and
writes nothing, instead of succeeding and round-tripping. -/
theorem claim_C4_delta_encode_crashes :
    detectNumericCols [[[49, 48]], [[49, 50]], [[49, 49]], [[49, 53]]] = [0] ∧
    applyDeltaEncoding [[[49, 48]], [[49, 50]], [[49, 49]], [[49, 53]]] =
      ([[.str [49, 48]], [.delta ⟨2, 0⟩], [.delta ⟨-1, 0⟩], [.delta ⟨4, 0⟩]], [0]) ∧
    saveMinRows [[[49, 48]], [[49, 50]], [[49, 49]], [[49, 53]]] =
      .error "AttributeError: tuple object has no attribute encode" :=
  ⟨rfl, rfl, rfl⟩

/-- Claim C3, counterexample to "every occurrence of a Dictionary string is
written as a DictRef": in the content
`[["5","a"],["5","b"],["x","c"],["x","d"],["x","e"]]` the cell `"5"`
occurs twice and is in the dictionary (index 1), yet `_write_cell` tries
numeric encoding first and emits the int8 tag `0xF8`, not a DictRef. -/
theorem claim_C3_dictref_counterexample :
    buildDictionaryRows
      [[.str [53], .str [97]], [.str [53], .str [98]], [.str [120], .str [99]],
       [.str [120], .str [100]], [.str [120], .str [101]]] =
      .ok [[120], [53]] ∧
    writeCell [[120], [53]] (.str [53]) = [248, 5] ∧
    writeCell [[120], [53]] (.str [53]) ≠ 255 :: writeVarintNat 1 :=
  ⟨rfl, rfl, by decide⟩

/-- Claim C6, counterexample to "a single parse failure anywhere in the
sample disqualifies the column": in `[["1"],["2"],["x"],["3"],["4"]]` the
sampled cell `"x"` fails to parse, yet 4 of the 5 sampled cells are
numeric, `4 ≥ 5 * 0.8`, and column 0 is still classified
numeric-eligible — a parse failure only fails to increment the count
(the `except` reset in the source is unreachable). -/
theorem claim_C6_parse_failure_counterexample :
    isNumeric [120] = false ∧
    detectNumericCols [[[49]], [[50]], [[120]], [[51]], [[52]]] = [0] :=
  ⟨rfl, rfl⟩

/-- Claim C7, counterexample: for the line-mode content `["ab"]` the
encoder emits a varint `0` in the NumericColumns position (byte offset 8),
so the dictionary section does *not* follow the content-kind byte
directly; the layout the claim asserts (`specC7LineLayout`) is one byte
shorter and differs from the actual output. -/
theorem claim_C7_line_section_counterexample :
    saveMinLines [[97, 98]] =
      [77, 73, 78, 70, 77, 84, 2, 0, 0, 0, 1, 253, 0, 2, 97, 98] ∧
    specC7LineLayout [[97, 98]] =
      [77, 73, 78, 70, 77, 84, 2, 0, 0, 1, 253, 0, 2, 97, 98] ∧
    saveMinLines [[97, 98]] ≠ specC7LineLayout [[97, 98]] :=
  ⟨rfl, rfl, by decide⟩

/-- Claim C8, counterexample to "decode fails on any unrecognized
content-kind byte": a container with the unknown kind byte `7` decodes
successfully — `is_csv = (file_type == 1)` silently treats every non-`1`
value as line mode. -/
theorem claim_C8_kind_byte_counterexample :
    decompressMin [77, 73, 78, 70, 77, 84, 2, 7, 0, 0, 0] =
      .ok (.lines [], false) := rfl

/-- Claim C9, counterexample: a version-1 row-mode container holding the
row `[Empty, Raw "a"]` decodes to `[["",""]]`, not `[["","a"]]` — the
version-1 branch treats the Empty tag `0x01` as a raw-string marker and
consumes the next byte as a length, desynchronising the stream. -/
theorem claim_C9_empty_tag_counterexample :
    v1ContainerRows [] [[.empty, .raw [97]]] =
      [77, 73, 78, 70, 77, 84, 1, 1, 0, 1, 2, 1, 0, 1, 97] ∧
    ([[.empty, .raw [97]]] : List (List V1Cell)).map
      (List.map (v1Resolve [])) = [[[], [97]]] ∧
    decompressMin (v1ContainerRows [] [[.empty, .raw [97]]]) =
      .ok (.rows [[[], []]], true) ∧
    (MinContent.rows [[[], []]] : MinContent) ≠ .rows [[[], [97]]] :=
  ⟨rfl, rfl, rfl, by decide⟩

/-- Claim C2: below the 35-bit cap the varint codec round-trips
(`read_varint(write_varint(n)) = n`, with the rest of the stream left
intact), and a stream opening with five continuation-flagged bytes is
rejected with the bounded `Varint too long` error after examining exactly
those five bytes, never reading further. -/
theorem claim_C2_varint_roundtrip_and_bound
    (n : Nat) (rest : List Nat) (h : n < 2 ^ 35)
    (b0 b1 b2 b3 b4 : Nat)
    (hc : ∀ b ∈ [b0, b1, b2, b3, b4], 128 ≤ b ∧ b < 256)
    (junk : List Nat) :
    readVarint (writeVarintNat n ++ rest) = .ok (n, rest) ∧
    readVarint (b0 :: b1 :: b2 :: b3 :: b4 :: junk) =
      .error "Varint too long" := by
  constructor
  · exact readVarint_writeVarintNat n rest h
  · have h0 := hc b0 (by simp)
    have h1 := hc b1 (by simp)
    have h2 := hc b2 (by simp)
    have h3 := hc b3 (by simp)
    have h4 := hc b4 (by simp)
    unfold readVarint
    rw [readVarintAux, if_neg (by omega), if_neg (by omega)]
    rw [readVarintAux, if_neg (by omega), if_neg (by omega)]
    rw [readVarintAux, if_neg (by omega), if_neg (by omega)]
    rw [readVarintAux, if_neg (by omega), if_neg (by omega)]
    rw [readVarintAux, if_neg (by omega), if_pos (by omega)]

/-- Witness for C2 at `n = 1000000` and a concrete all-continuation
stream. -/
theorem claim_C2_varint_witness :
    readVarint (writeVarintNat 1000000 ++ [9, 9]) = .ok (1000000, [9, 9]) ∧
    readVarint [200, 201, 202, 203, 204] = .error "Varint too long" :=
  claim_C2_varint_roundtrip_and_bound 1000000 [9, 9] (by norm_num)
    200 201 202 203 204 (by decide) []

/-- Claim C10: for every input byte sequence the line-mode reader returns
normalised rows — a `UnicodeDecodeError` under UTF-8 triggers a full
re-read with latin-1, which accepts every byte sequence, so normalisation
never fails on invalid UTF-8; and when the bytes are not valid UTF-8 the
result is exactly the normalisation of the latin-1 reading. -/
theorem claim_C10_encoding_fallback (file : Bytes) :
    (∃ out, dedupeFileLines file = .ok out) ∧
    (utf8Valid file = false →
      dedupeFileLines file = .ok (normalizeLines (latin1ToUtf8 file))) := by
  unfold dedupeFileLines decodeFileText
  by_cases h : utf8Valid file
  · simp [h]
  · simp [h]

/-- Witness for C10 at the invalid-UTF-8 input `[0xFF, '\n', 'a']`. -/
theorem claim_C10_encoding_fallback_witness :
    (∃ out, dedupeFileLines [255, 10, 97] = .ok out) ∧
    dedupeFileLines [255, 10, 97] =
      .ok (normalizeLines (latin1ToUtf8 [255, 10, 97])) :=
  ⟨(claim_C10_encoding_fallback [255, 10, 97]).1,
   (claim_C10_encoding_fallback [255, 10, 97]).2 (by decide)⟩

/-! ### Run-length encoding: the scan produces exactly the maximal runs -/

theorem runs_cons_eq [DecidableEq α] (x : α) (xs : List α) :
    runs (x :: xs) = runsCons x 1 (runs xs) := by
  cases h : runs xs with
  | nil => simp [runs, runsCons, h]
  | cons p rest =>
    obtain ⟨k, y⟩ := p
    simp [runs, runsCons, h]

theorem runsCons_collapse [DecidableEq α] (rs : List (Nat × α)) (x : α) (c : Nat) :
    runsCons x c (runsCons x 1 rs) = runsCons x (c + 1) rs := by
  cases rs with
  | nil => simp [runsCons, Nat.add_comm]
  | cons p rest =>
    obtain ⟨k, y⟩ := p
    by_cases hxy : x = y
    · subst hxy
      have hadd : k + 1 + c = k + (c + 1) := by omega
      simp [runsCons, hadd]
    · have hadd : 1 + c = c + 1 := by omega
      simp [runsCons, hxy, hadd]

theorem runsCons_new [DecidableEq α] (rs : List (Nat × α)) (x prev : α)
    (c : Nat) (hx : prev ≠ x) :
    runsCons prev c (runsCons x 1 rs) = (c, prev) :: runsCons x 1 rs := by
  cases rs with
  | nil => simp [runsCons, if_neg hx]
  | cons p rest =>
    obtain ⟨k, y⟩ := p
    by_cases hxy : x = y
    · subst hxy
      simp [runsCons, hx]
    · simp [runsCons, hxy, hx]

theorem rleGo_eq_runsCons [DecidableEq α] (xs : List α) :
    ∀ (prev : α) (c : Nat),
      rleGo prev c xs = (runsCons prev c (runs xs)).map
        (fun r => rleFlush r.2 r.1) := by
  induction xs with
  | nil => intro prev c; simp [rleGo, runs, runsCons]
  | cons x xs ih =>
    intro prev c
    by_cases hx : x = prev
    · subst hx
      rw [rleGo, if_pos rfl, ih x (c + 1), runs_cons_eq, runsCons_collapse]
    · rw [rleGo, if_neg hx, ih x 1, runs_cons_eq,
        runsCons_new _ _ _ _ (fun h => hx h.symm)]
      simp

theorem applyRLE_eq_runs [DecidableEq α] (l : List α) :
    applyRLE l = (runs l).map (fun r => rleFlush r.2 r.1) := by
  cases l with
  | nil => rfl
  | cons x xs => rw [applyRLE, rleGo_eq_runsCons xs x 1, runs_cons_eq]

theorem runs_count_pos [DecidableEq α] (l : List α) :
    ∀ r ∈ runs l, 1 ≤ r.1 := by
  induction l with
  | nil => simp [runs]
  | cons x xs ih =>
    rw [runs_cons_eq]
    cases h : runs xs with
    | nil => simp [runsCons]
    | cons p rest =>
      obtain ⟨k, y⟩ := p
      rw [h] at ih
      by_cases hxy : x = y
      · simp only [runsCons, if_pos hxy]
        intro r hr
        rcases List.mem_cons.1 hr with h1 | h1
        · subst h1; omega
        · exact ih r (List.mem_cons_of_mem _ h1)
      · simp only [runsCons, if_neg hxy]
        intro r hr
        rcases List.mem_cons.1 hr with h1 | h1
        · subst h1; omega
        · exact ih r h1

theorem runs_flatten [DecidableEq α] (l : List α) :
    ((runs l).map fun r => List.replicate r.1 r.2).flatten = l := by
  induction l with
  | nil => simp [runs]
  | cons x xs ih =>
    rw [runs_cons_eq]
    cases h : runs xs with
    | nil => rw [h] at ih; simp [runsCons]; simpa using ih
    | cons p rest =>
      obtain ⟨k, y⟩ := p
      rw [h] at ih
      by_cases hxy : x = y
      · subst hxy
        rw [show runsCons x 1 ((k, x) :: rest) = (k + 1, x) :: rest by
          simp [runsCons]]
        have hexp : (List.map (fun r => List.replicate r.1 r.2)
            ((k + 1, x) :: rest)).flatten =
            List.replicate (k + 1) x ++
              (List.map (fun r => List.replicate r.1 r.2) rest).flatten := by
          simp
        rw [hexp, List.replicate_succ, List.cons_append]
        simp only [List.map_cons, List.flatten_cons] at ih
        rw [ih]
      · rw [show runsCons x 1 ((k, y) :: rest) = (1, x) :: (k, y) :: rest by
          simp [runsCons, hxy]]
        have hexp : (List.map (fun r => List.replicate r.1 r.2)
            ((1, x) :: (k, y) :: rest)).flatten =
            List.replicate 1 x ++
              (List.map (fun r => List.replicate r.1 r.2)
                ((k, y) :: rest)).flatten := by
          simp
        rw [hexp, ih]
        simp

theorem runs_chain' [DecidableEq α] (l : List α) :
    (runs l).Chain' (fun a b => a.2 ≠ b.2) := by
  induction l with
  | nil => simp [runs]
  | cons x xs ih =>
    rw [runs_cons_eq]
    cases h : runs xs with
    | nil => simp [runsCons]
    | cons p rest =>
      obtain ⟨k, y⟩ := p
      rw [h] at ih
      by_cases hxy : x = y
      · simp only [runsCons, if_pos hxy]
        rw [List.chain'_cons'] at ih ⊢
        exact ⟨fun b hb => ih.1 b hb, ih.2⟩
      · simp only [runsCons, if_neg hxy]
        rw [List.chain'_cons]
        exact ⟨hxy, ih⟩

theorem expand_map_rleFlush [DecidableEq α] (rs : List (Nat × α))
    (h : ∀ r ∈ rs, 1 ≤ r.1) :
    expandRLE (rs.map fun r => rleFlush r.2 r.1) =
      (rs.map fun r => List.replicate r.1 r.2).flatten := by
  induction rs with
  | nil => rfl
  | cons p rest ih =>
    obtain ⟨k, v⟩ := p
    have hk : 1 ≤ k := h (k, v) (List.mem_cons_self _ _)
    have ih2 := ih (fun r hr => h r (List.mem_cons_of_mem _ hr))
    by_cases h1 : 1 < k
    · simp only [List.map_cons, expandRLE, rleFlush, if_pos h1,
        List.flatten_cons] at ih2 ⊢
      rw [ih2]
    · have hk1 : k = 1 := by omega
      subst hk1
      simp only [List.map_cons, expandRLE, rleFlush, if_neg h1,
        List.flatten_cons] at ih2 ⊢
      rw [ih2]
      simp

/-- Claim C5: the RLE scan encodes a list as exactly its maximal runs —
a run of `k ≥ 2` equal consecutive values becomes one `Repeat(k, value)`
item and a value with no equal neighbour becomes one `Literal` item
(`runs` is the canonical maximal-run decomposition: counts are positive,
adjacent runs differ, and the runs concatenate back to the list) — and the
decoder's expansion (`count` copies per repeat item, one per literal)
restores the original list in order. -/
theorem claim_C5_rle_maximal_runs (α : Type) [DecidableEq α] (l : List α) :
    applyRLE l = (runs l).map (fun r => rleFlush r.2 r.1) ∧
    (∀ r ∈ runs l, 1 ≤ r.1) ∧
    (runs l).Chain' (fun a b => a.2 ≠ b.2) ∧
    ((runs l).map fun r => List.replicate r.1 r.2).flatten = l ∧
    (∀ k v, RLEItem.rep k v ∈ applyRLE l → 2 ≤ k) ∧
    expandRLE (applyRLE l) = l := by
  refine ⟨applyRLE_eq_runs l, runs_count_pos l, runs_chain' l,
    runs_flatten l, ?_, ?_⟩
  · intro k v hm
    rw [applyRLE_eq_runs l] at hm
    obtain ⟨⟨k', v'⟩, hr, hflush⟩ := List.mem_map.1 hm
    by_cases h1 : 1 < k'
    · simp only [rleFlush, if_pos h1] at hflush
      cases hflush
      omega
    · simp only [rleFlush, if_neg h1] at hflush
      cases hflush
  · rw [applyRLE_eq_runs l, expand_map_rleFlush _ (runs_count_pos l),
      runs_flatten l]

/-- Witness for C5 at the concrete list `[1, 1, 1, 2]`. -/
theorem claim_C5_rle_witness :
    applyRLE [1, 1, 1, 2] =
      (runs [1, 1, 1, 2]).map (fun r => rleFlush r.2 r.1) ∧
    (2 ≤ 3) ∧
    expandRLE (applyRLE [1, 1, 1, 2]) = [1, 1, 1, 2] :=
  ⟨(claim_C5_rle_maximal_runs Nat [1, 1, 1, 2]).1,
   (claim_C5_rle_maximal_runs Nat [1, 1, 1, 2]).2.2.2.2.1 3 1 (by decide),
   (claim_C5_rle_maximal_runs Nat [1, 1, 1, 2]).2.2.2.2.2⟩

/-! ### The decimal model versus rational values -/

theorem mkDec_toRat (e : Nat) : ∀ m : Int, (mkDec m e).toRat = (m : ℚ) / 10 ^ e := by
  induction e with
  | zero => intro m; rfl
  | succ n ih =>
    intro m
    by_cases h : m % 10 = 0
    · have hdvd : (10 : ℤ) ∣ m := Int.dvd_of_emod_eq_zero h
      obtain ⟨k, rfl⟩ := hdvd
      simp only [mkDec, if_pos h]
      rw [Int.mul_ediv_cancel_left k (by norm_num), ih]
      push_cast
      rw [pow_succ]
      have h1 : (10 : ℚ) ^ n ≠ 0 := by positivity
      field_simp
      ring
    · simp only [mkDec, if_neg h]
      rfl

theorem decSub_toRat (x y : Dec) : (decSub x y).toRat = x.toRat - y.toRat := by
  unfold decSub
  rw [mkDec_toRat]
  unfold Dec.toRat
  push_cast
  rw [pow_add]
  have h1 : (10 : ℚ) ^ x.e ≠ 0 := by positivity
  have h2 : (10 : ℚ) ^ y.e ≠ 0 := by positivity
  field_simp
  ring

theorem decLt45_iff (d v : Dec) :
    decLt45 d v = true ↔ 5 * |d.toRat| < 4 * |v.toRat| := by
  unfold decLt45 Dec.toRat
  rw [decide_eq_true_eq]
  have h1 : (0 : ℚ) < 10 ^ d.e := by positivity
  have h2 : (0 : ℚ) < 10 ^ v.e := by positivity
  rw [abs_div, abs_div, abs_of_pos h1, abs_of_pos h2,
    ← mul_div_assoc, ← mul_div_assoc, div_lt_div_iff₀ h1 h2]
  constructor
  · intro h
    have hq : ((5 * d.m.natAbs * 10 ^ v.e : Nat) : ℚ) <
        ((4 * v.m.natAbs * 10 ^ d.e : Nat) : ℚ) := by exact_mod_cast h
    push_cast [Int.cast_natAbs] at hq
    linarith
  · intro h
    have hq : ((5 * d.m.natAbs * 10 ^ v.e : Nat) : ℚ) <
        ((4 * v.m.natAbs * 10 ^ d.e : Nat) : ℚ) := by
      push_cast [Int.cast_natAbs]
      linarith
    exact_mod_cast hq

/-- Case analysis of the per-cell delta rule: a cell is either kept
verbatim or becomes a delta, and a delta implies the full guard. -/
theorem deltaCell_cases (cols : List Nat) (prev : Option (List Bytes))
    (j : Nat) (cell : Bytes) :
    deltaCell cols prev j cell = .str cell ∨
    ∃ p v q, prev = some p ∧ j ∈ cols ∧ j < p.length ∧
      parseDec cell = some v ∧ parseDec (p.getD j []) = some q ∧
      deltaCell cols prev j cell = .delta (decSub v q) ∧
      decLt45 (decSub v q) v = true := by
  cases prev with
  | none => left; rfl
  | some p =>
    simp only [deltaCell]
    by_cases hc : j ∈ cols ∧ p ≠ [] ∧ j < p.length ∧
        isNumeric cell ∧ isNumeric (p.getD j [])
    · rw [if_pos hc]
      cases hv : parseDec cell with
      | none => left; rfl
      | some v =>
        cases hq : parseDec (p.getD j []) with
        | none => left; rfl
        | some q =>
          by_cases hlt : decLt45 (decSub v q) v
          · right
            refine ⟨p, v, q, rfl, hc.1, hc.2.2.1, rfl, hq, ?_, hlt⟩
            show (if decLt45 (decSub v q) v = true then
              DCell.delta (decSub v q) else DCell.str cell) =
              DCell.delta (decSub v q)
            rw [if_pos hlt]
          · left
            show (if decLt45 (decSub v q) v = true then
              DCell.delta (decSub v q) else DCell.str cell) =
              DCell.str cell
            rw [if_neg hlt]
    · rw [if_neg hc]
      left; rfl

/-- Claim C6 (amended): a column is classified numeric-eligible only if at
least 80% of the cells sampled from the first `min(100, rowCount)` rows
parse as numbers (a parse failure merely fails to count — it does not
disqualify the column, see the counterexample); and a cell is replaced by
`Delta(value − previous-row value in the same column)` only in a numeric
column with a parseable previous value, and only when
`|delta| < 0.8 × |value|`, the original value being kept otherwise. -/
theorem claim_C6_classification_and_delta_guard
    (data : List (List Bytes)) (c : Nat)
    (cols : List Nat) (prev : Option (List Bytes)) (cell : Bytes) (j : Nat)
    (hc : c ∈ detectNumericCols data) :
    4 * min 100 data.length ≤
      5 * (data.take (min 100 data.length)).countP
        (fun row => c < row.length && isNumeric (row.getD c [])) ∧
    (deltaCell cols prev j cell = .str cell ∨
      ∃ p v q, prev = some p ∧ j ∈ cols ∧ j < p.length ∧
        parseDec cell = some v ∧ parseDec (p.getD j []) = some q ∧
        deltaCell cols prev j cell = .delta (decSub v q) ∧
        (decSub v q).toRat = v.toRat - q.toRat ∧
        5 * |(decSub v q).toRat| < 4 * |v.toRat|) := by
  constructor
  · unfold detectNumericCols at hc
    rw [List.mem_filter] at hc
    have h := of_decide_eq_true hc.2
    unfold sampleNumericCount at h
    rwa [List.countP_eq_length_filter]
  · rcases deltaCell_cases cols prev j cell with h | ⟨p, v, q, h1, h2, h3, h4, h5, h6, h7⟩
    · left; exact h
    · right
      exact ⟨p, v, q, h1, h2, h3, h4, h5, h6, decSub_toRat v q,
        (decLt45_iff (decSub v q) v).1 h7⟩

/-- Witness for C6: the counterexample data classifies column 0 as
eligible, and with previous row `["49"]` the cell `"50"` becomes
`Delta(1)`. -/
theorem claim_C6_classification_witness :
    (4 * min 100 ([[[49]], [[50]], [[120]], [[51]], [[52]]] :
        List (List Bytes)).length ≤
      5 * (([[[49]], [[50]], [[120]], [[51]], [[52]]] :
        List (List Bytes)).take
          (min 100 ([[[49]], [[50]], [[120]], [[51]], [[52]]] :
            List (List Bytes)).length)).countP
        (fun row => 0 < row.length && isNumeric (row.getD 0 []))) ∧
    (deltaCell [0] (some [[52, 57]]) 0 [53, 48] = .str [53, 48] ∨
      ∃ p v q, (some [[52, 57]] : Option (List Bytes)) = some p ∧
        0 ∈ ([0] : List Nat) ∧ 0 < p.length ∧
        parseDec [53, 48] = some v ∧ parseDec (p.getD 0 []) = some q ∧
        deltaCell [0] (some [[52, 57]]) 0 [53, 48] = .delta (decSub v q) ∧
        (decSub v q).toRat = v.toRat - q.toRat ∧
        5 * |(decSub v q).toRat| < 4 * |v.toRat|) :=
  claim_C6_classification_and_delta_guard
    [[[49]], [[50]], [[120]], [[51]], [[52]]] 0
    [0] (some [[52, 57]]) [53, 48] 0 (by decide)

/-! ### Dictionary builder: membership, uniqueness, serialisation -/

theorem mem_dedupeKeepFirst [DecidableEq α] (l : List α) :
    ∀ (seen : List α) (x : α),
      x ∈ dedupeKeepFirst seen l ↔ x ∈ l ∧ x ∉ seen := by
  induction l with
  | nil => intro seen x; simp [dedupeKeepFirst]
  | cons y ys ih =>
    intro seen x
    by_cases hy : y ∈ seen
    · rw [dedupeKeepFirst, if_pos hy, ih]
      constructor
      · rintro ⟨h1, h2⟩
        exact ⟨List.mem_cons_of_mem _ h1, h2⟩
      · rintro ⟨h1, h2⟩
        rcases List.mem_cons.1 h1 with rfl | h1
        · exact absurd hy h2
        · exact ⟨h1, h2⟩
    · rw [dedupeKeepFirst, if_neg hy]
      constructor
      · intro h
        rcases List.mem_cons.1 h with rfl | h
        · exact ⟨List.mem_cons_self _ _, hy⟩
        · rw [ih] at h
          refine ⟨List.mem_cons_of_mem _ h.1, fun hs => h.2 (List.mem_cons_of_mem _ hs)⟩
      · rintro ⟨h1, h2⟩
        rcases List.mem_cons.1 h1 with rfl | h1
        · exact List.mem_cons_self _ _
        · by_cases hxy : x = y
          · subst hxy; exact List.mem_cons_self _ _
          · refine List.mem_cons_of_mem _ ?_
            rw [ih]
            exact ⟨h1, fun hs => by
              rcases List.mem_cons.1 hs with h | h
              · exact hxy h
              · exact h2 h⟩

theorem nodup_dedupeKeepFirst [DecidableEq α] (l : List α) :
    ∀ seen : List α, (dedupeKeepFirst seen l).Nodup := by
  induction l with
  | nil => intro seen; simp [dedupeKeepFirst]
  | cons y ys ih =>
    intro seen
    by_cases hy : y ∈ seen
    · rw [dedupeKeepFirst, if_pos hy]; exact ih seen
    · rw [dedupeKeepFirst, if_neg hy]
      refine List.nodup_cons.2 ⟨?_, ih (y :: seen)⟩
      intro hmem
      exact ((mem_dedupeKeepFirst ys (y :: seen) y).1 hmem).2 (List.mem_cons_self _ _)

theorem mem_insertByCountDesc (cnt : Bytes → Nat) (k : Bytes) (l : List Bytes) :
    ∀ x, x ∈ insertByCountDesc cnt k l ↔ x = k ∨ x ∈ l := by
  induction l with
  | nil => intro x; simp [insertByCountDesc]
  | cons y ys ih =>
    intro x
    rw [insertByCountDesc]
    by_cases hlt : cnt y < cnt k
    · rw [if_pos hlt]
      simp
    · rw [if_neg hlt]
      rw [List.mem_cons, ih x, List.mem_cons]
      tauto

theorem nodup_insertByCountDesc (cnt : Bytes → Nat) (k : Bytes) (l : List Bytes)
    (hk : k ∉ l) (hl : l.Nodup) : (insertByCountDesc cnt k l).Nodup := by
  induction l with
  | nil => simp [insertByCountDesc]
  | cons y ys ih =>
    rw [insertByCountDesc]
    by_cases hlt : cnt y < cnt k
    · rw [if_pos hlt]
      exact List.nodup_cons.2 ⟨hk, hl⟩
    · rw [if_neg hlt]
      have hky : k ≠ y := fun h => hk (h ▸ List.mem_cons_self _ _)
      have hkys : k ∉ ys := fun h => hk (List.mem_cons_of_mem _ h)
      have hys := List.nodup_cons.1 hl
      refine List.nodup_cons.2 ⟨?_, ih hkys hys.2⟩
      intro hmem
      rcases (mem_insertByCountDesc cnt k ys y).1 hmem with h | h
      · exact hky h.symm
      · exact hys.1 h

theorem mem_foldl_insertByCountDesc (cnt : Bytes → Nat) (keys : List Bytes) :
    ∀ (acc : List Bytes) (x : Bytes),
      x ∈ keys.foldl (fun a k => insertByCountDesc cnt k a) acc ↔
        x ∈ acc ∨ x ∈ keys := by
  induction keys with
  | nil => intro acc x; simp
  | cons k ks ih =>
    intro acc x
    rw [List.foldl_cons, ih, mem_insertByCountDesc]
    rw [List.mem_cons]
    tauto

theorem mem_sortByCountDesc (cnt : Bytes → Nat) (keys : List Bytes) (x : Bytes) :
    x ∈ sortByCountDesc cnt keys ↔ x ∈ keys := by
  unfold sortByCountDesc
  rw [mem_foldl_insertByCountDesc]
  simp

theorem nodup_foldl_insertByCountDesc (cnt : Bytes → Nat) (keys : List Bytes) :
    ∀ acc : List Bytes, keys.Nodup → acc.Nodup →
      (∀ k ∈ keys, k ∉ acc) →
      (keys.foldl (fun a k => insertByCountDesc cnt k a) acc).Nodup := by
  induction keys with
  | nil => intro acc _ h _; simpa using h
  | cons k ks ih =>
    intro acc hkeys hacc hdisj
    rw [List.foldl_cons]
    have hks := List.nodup_cons.1 hkeys
    refine ih _ hks.2 (nodup_insertByCountDesc cnt k acc
      (hdisj k (List.mem_cons_self _ _)) hacc) ?_
    intro k' hk' hmem
    rcases (mem_insertByCountDesc cnt k acc k').1 hmem with h | h
    · exact hks.1 (h ▸ hk')
    · exact hdisj k' (List.mem_cons_of_mem _ hk') h

theorem nodup_sortByCountDesc (cnt : Bytes → Nat) (keys : List Bytes)
    (h : keys.Nodup) : (sortByCountDesc cnt keys).Nodup :=
  nodup_foldl_insertByCountDesc cnt keys [] h List.nodup_nil (by simp)

theorem mem_dictFromOcc (occ : List Bytes) (s : Bytes) :
    s ∈ dictFromOcc occ ↔
      2 ≤ occ.count s ∨ (occ.count s = 1 ∧ 6 < s.length) := by
  unfold dictFromOcc
  rw [List.mem_filter, mem_sortByCountDesc, mem_dedupeKeepFirst]
  constructor
  · rintro ⟨-, hp⟩
    simp only [Bool.or_eq_true, decide_eq_true_eq, Bool.and_eq_true,
      beq_iff_eq] at hp
    exact hp
  · intro h
    have hcount : 1 ≤ occ.count s := by
      rcases h with h | h
      · omega
      · omega
    refine ⟨⟨List.count_pos_iff.1 (by omega), by simp⟩, ?_⟩
    simpa using h

theorem nodup_dictFromOcc (occ : List Bytes) : (dictFromOcc occ).Nodup :=
  (nodup_sortByCountDesc _ _ (nodup_dedupeKeepFirst occ [])).filter _

theorem collectCells_no_empty (cs : List DCell) :
    ∀ occ, collectCells cs = .ok occ → [] ∉ occ := by
  induction cs with
  | nil =>
    intro occ h
    cases h
    simp
  | cons c rest ih =>
    intro occ h
    cases c with
    | str s =>
      by_cases hs : s = []
      · rw [collectCells, if_pos hs] at h
        exact ih occ h
      · rw [collectCells, if_neg hs] at h
        cases hrest : collectCells rest with
        | error e => rw [hrest] at h; cases h
        | ok b =>
          rw [hrest] at h
          cases h
          intro hmem
          rcases List.mem_cons.1 hmem with h | h
          · exact hs h.symm
          · exact ih b hrest h
    | delta d => cases h

theorem collectRowCells_no_empty (data : List (List DCell)) :
    ∀ occ, collectRowCells data = .ok occ → [] ∉ occ := by
  induction data with
  | nil =>
    intro occ h
    cases h
    simp
  | cons row rest ih =>
    intro occ h
    rw [collectRowCells] at h
    cases ha : collectCells row with
    | error e => rw [ha] at h; cases h
    | ok a =>
      rw [ha] at h
      cases hb : collectRowCells rest with
      | error e => rw [hb] at h; cases h
      | ok b =>
        rw [hb] at h
        cases h
        intro hmem
        rcases List.mem_append.1 hmem with h | h
        · exact collectCells_no_empty row a ha h
        · exact ih b hb h

theorem indexOf?_get? [DecidableEq α] [BEq α] [LawfulBEq α] (d : List α) (s : α)
    (h : s ∈ d) : ∃ i, d.indexOf? s = some i ∧ d.get? i = some s := by
  induction d with
  | nil => cases h
  | cons y ys ih =>
    by_cases hy : y = s
    · subst hy
      refine ⟨0, ?_, rfl⟩
      simp [List.indexOf?, List.findIdx?_cons]
    · have hmem : s ∈ ys := by
        rcases List.mem_cons.1 h with h1 | h1
        · exact absurd h1.symm hy
        · exact h1
      obtain ⟨i, hidx, hget⟩ := ih hmem
      refine ⟨i + 1, ?_, by simpa using hget⟩
      have hbeq : (y == s) = false := by
        simp [hy]
      rw [List.indexOf?] at hidx
      simp [List.indexOf?, List.findIdx?_cons, hbeq, hidx]

/-- Claim C3 (amended): when the dictionary build succeeds (`occ` is the
row-major list of truthy cells it counted), a string is in the dictionary
iff it occurs at least twice or occurs exactly once with byte length
greater than 6; the dictionary has no duplicates and never contains the
empty string; and every dictionary string that does **not** parse as a
number is serialized as a DictRef (tag `0xFF` + varint index) pointing
back at it — numeric strings take the numeric tags instead, as
`_write_cell` tries `encode_number` before the dictionary. -/
theorem claim_C3_dictionary (content : List (List DCell)) (occ d : List Bytes)
    (hocc : collectRowCells content = .ok occ)
    (hd : buildDictionaryRows content = .ok d) :
    (∀ s : Bytes, s ∈ d ↔
      (2 ≤ occ.count s ∨ (occ.count s = 1 ∧ 6 < s.length))) ∧
    d.Nodup ∧
    ([] : Bytes) ∉ d ∧
    (∀ s ∈ d, encodeNumber s = none →
      ∃ i, d.get? i = some s ∧
        writeCell d (.str s) = 255 :: writeVarintNat i) := by
  have hd2 : d = dictFromOcc occ := by
    unfold buildDictionaryRows at hd
    rw [hocc] at hd
    simpa [Except.map] using hd.symm
  subst hd2
  have hempty : ([] : Bytes) ∉ dictFromOcc occ := by
    intro hmem
    rcases (mem_dictFromOcc occ []).1 hmem with h | h
    · have hpos : ([] : Bytes) ∈ occ := List.count_pos_iff.1 (by omega)
      exact collectRowCells_no_empty content occ hocc hpos
    · simp at h
  refine ⟨fun s => mem_dictFromOcc occ s, nodup_dictFromOcc occ, hempty, ?_⟩
  intro s hs henc
  have hne : s ≠ [] := fun h => hempty (h ▸ hs)
  obtain ⟨i, hidx, hget⟩ := indexOf?_get? (dictFromOcc occ) s hs
  refine ⟨i, hget, ?_⟩
  show (if s = [] then [1]
    else match encodeNumber s with
      | some (tag, payload) => numTagByte tag :: payload
      | none =>
        match List.indexOf? s (dictFromOcc occ) with
        | some idx => 255 :: writeVarintNat idx
        | none => 0 :: writeVarintNat s.length ++ s) = 255 :: writeVarintNat i
  rw [if_neg hne, henc, hidx]

/-- Witness for C3 on the content `[["abba","x"],["abba","y"]]`: the twice
occurring, non-numeric `"abba"` is in the dictionary at index 0 and is
serialized as DictRef. -/
theorem claim_C3_dictionary_witness :
    (([97, 98, 98, 97] : Bytes) ∈ ([[97, 98, 98, 97]] : List Bytes) ↔
      (2 ≤ ([[97, 98, 98, 97], [120], [97, 98, 98, 97], [121]] :
          List Bytes).count [97, 98, 98, 97] ∨
       (([[97, 98, 98, 97], [120], [97, 98, 98, 97], [121]] :
          List Bytes).count [97, 98, 98, 97] = 1 ∧
        6 < ([97, 98, 98, 97] : Bytes).length))) ∧
    ([[97, 98, 98, 97]] : List Bytes).Nodup ∧
    ([] : Bytes) ∉ ([[97, 98, 98, 97]] : List Bytes) ∧
    (∃ i, ([[97, 98, 98, 97]] : List Bytes).get? i = some [97, 98, 98, 97] ∧
      writeCell [[97, 98, 98, 97]] (.str [97, 98, 98, 97]) =
        255 :: writeVarintNat i) := by
  have h := claim_C3_dictionary
    [[.str [97, 98, 98, 97], .str [120]], [.str [97, 98, 98, 97], .str [121]]]
    [[97, 98, 98, 97], [120], [97, 98, 98, 97], [121]] [[97, 98, 98, 97]]
    rfl rfl
  exact ⟨h.1 [97, 98, 98, 97], h.2.1, h.2.2.1,
    h.2.2.2 [97, 98, 98, 97] (by decide) rfl⟩

/-! ### Container layout: the NumericColumns position -/

theorem take_magic (t : List Nat) : (magicBytes ++ t).take 6 = magicBytes :=
  List.take_left' rfl

theorem drop_magic (t : List Nat) : (magicBytes ++ t).drop 6 = t :=
  List.drop_left' rfl

/-- Header processing of a version-2 line-mode container: the varint in
the NumericColumns position is read and its value discarded. -/
theorem decompressMin_line_v2_skip (k : Nat) (rest : List Nat)
    (hk : k < 2 ^ 35) :
    decompressMin (magicBytes ++ [2, 0] ++ writeVarintNat k ++ rest) =
      (do
        let (dictSize, s) ← readVarint rest
        let (dictionary, s) ← readDictLoop dictSize [] s
        let (itemCount, s) ← readVarint s
        let (content, _) ← readItemsLinesV2 dictionary itemCount [] s
        (.ok (.lines content, false) : Except String (MinContent × Bool))) := by
  have hassoc : magicBytes ++ [2, 0] ++ writeVarintNat k ++ rest =
      magicBytes ++ (2 :: 0 :: (writeVarintNat k ++ rest)) := by
    simp
  rw [hassoc]
  unfold decompressMin
  rw [if_neg (by rw [take_magic]; simp), drop_magic]
  simp only [readByte, Bind.bind, Except.bind]
  rw [if_neg (by norm_num)]
  rw [if_neg (by norm_num), if_pos (by norm_num)]
  rw [readVarint_writeVarintNat k rest hk]
  norm_num

/-- Claim C7 (amended): the encoder writes the NumericColumns *indices*
for row-mode only, but the varint *count* is written for both modes — a
line-mode container carries a varint `0` between the content-kind byte
and the dictionary section, and the decoder reads and discards a varint
at that position for line-mode files, so its value never affects the
decoded result. -/
theorem claim_C7_numeric_section (ls : List Bytes)
    (rows : List (List Bytes)) (bs : List Nat)
    (hrows : saveMinRows rows = .ok bs)
    (k k' : Nat) (rest : List Nat) (hk : k < 2 ^ 35) (hk' : k' < 2 ^ 35) :
    saveMinLines ls =
      magicBytes ++ [2, 0] ++ writeVarintNat 0 ++
        (dictSection (buildDictionaryLines ls) ++
          writeVarintNat (applyRLE ls).length ++
          ((applyRLE ls).map (itemBytesLines (buildDictionaryLines ls))).flatten) ∧
    (∃ tail, bs = magicBytes ++ [2, 1] ++
      writeVarintNat (applyDeltaEncoding (optimizeCsv rows)).2.length ++
      ((applyDeltaEncoding (optimizeCsv rows)).2.map writeVarintNat).flatten ++
      tail) ∧
    decompressMin (magicBytes ++ [2, 0] ++ writeVarintNat k ++ rest) =
      decompressMin (magicBytes ++ [2, 0] ++ writeVarintNat k' ++ rest) := by
  refine ⟨by simp [saveMinLines], ?_, ?_⟩
  · simp only [saveMinRows] at hrows
    rcases hpe : applyDeltaEncoding (optimizeCsv rows) with ⟨dcontent, cols⟩
    rw [hpe] at hrows
    cases hb : buildDictionaryRows dcontent with
    | error e =>
      rw [hb] at hrows
      simp [Bind.bind, Except.bind] at hrows
    | ok dict =>
      rw [hb] at hrows
      simp only [Bind.bind, Except.bind, Except.ok.injEq] at hrows
      refine ⟨dictSection dict ++ writeVarintNat (applyRLE dcontent).length ++
        ((applyRLE dcontent).map (itemBytesRows dict)).flatten, ?_⟩
      rw [← hrows]
      simp
  · rw [decompressMin_line_v2_skip k rest hk,
      decompressMin_line_v2_skip k' rest hk']

/-- Witness for C7 at the line content `["ab"]`, the row content
`[["ab"]]`, and varints `0`/`5` in the skipped position. -/
theorem claim_C7_numeric_section_witness :
    saveMinLines [[97, 98]] =
      magicBytes ++ [2, 0] ++ writeVarintNat 0 ++
        (dictSection (buildDictionaryLines [[97, 98]]) ++
          writeVarintNat (applyRLE [[97, 98]]).length ++
          ((applyRLE [[97, 98]]).map
            (itemBytesLines (buildDictionaryLines [[97, 98]]))).flatten) ∧
    (∃ tail, [77, 73, 78, 70, 77, 84, 2, 1, 0, 0, 1, 253, 1, 0, 2, 97, 98] =
      magicBytes ++ [2, 1] ++
      writeVarintNat (applyDeltaEncoding (optimizeCsv [[[97, 98]]])).2.length ++
      ((applyDeltaEncoding (optimizeCsv [[[97, 98]]])).2.map
        writeVarintNat).flatten ++ tail) ∧
    decompressMin (magicBytes ++ [2, 0] ++ writeVarintNat 0 ++ [0, 0]) =
      decompressMin (magicBytes ++ [2, 0] ++ writeVarintNat 5 ++ [0, 0]) :=
  claim_C7_numeric_section [[97, 98]] [[[97, 98]]]
    [77, 73, 78, 70, 77, 84, 2, 1, 0, 0, 1, 253, 1, 0, 2, 97, 98] rfl
    0 5 [0, 0] (by norm_num) (by norm_num)

/-- Claim C8 (amended): decoding fails with a fatal error on any 6-byte
magic mismatch, on any version byte other than 1 or 2, on any version-2
RLE marker byte other than `0xFD`/`0xFE` (row and line mode alike), and on
any version-2 cell tag byte outside the known tag set — the content-kind
byte, by contrast, is never validated (see the counterexample). -/
theorem claim_C8_fatal_errors (bs : List Nat) (v : Nat) (t junk : List Nat)
    (b : Nat) (dict : List Bytes) (numCols : List Nat)
    (content : List (List Bytes)) (lcontent : List Bytes) (n : Nat)
    (isNum : Bool) (prow : Option (List Bytes)) (ci : Nat) :
    (bs.take 6 ≠ magicBytes →
      decompressMin bs = .error "Invalid MIN format file") ∧
    (bs.take 6 = magicBytes → bs.drop 6 = v :: t → v ≠ 1 → v ≠ 2 →
      decompressMin bs = .error "Unsupported MIN format version") ∧
    (b ≠ 254 → b ≠ 253 →
      readItemsRowsV2 dict numCols (n + 1) content (b :: junk) =
        .error "Unknown data marker") ∧
    (b ≠ 254 → b ≠ 253 →
      readItemsLinesV2 dict (n + 1) lcontent (b :: junk) =
        .error "Unknown data marker") ∧
    (b ∉ ([0, 1, 247, 255, 248, 249, 250, 251, 252] : List Nat) →
      readCellV2 dict isNum prow ci (b :: junk) =
        .error "Unknown cell encoding flag") := by
  refine ⟨?_, ?_, ?_, ?_, ?_⟩
  · intro h
    unfold decompressMin
    rw [if_pos h]
  · intro h1 h2 h3 h4
    unfold decompressMin
    rw [if_neg (not_not_intro h1), h2]
    simp only [readByte, Bind.bind, Except.bind]
    rw [if_pos ⟨h3, h4⟩]
  · intro h1 h2
    simp only [readItemsRowsV2, readByte, Bind.bind, Except.bind]
    rw [if_neg h1, if_neg h2]
  · intro h1 h2
    simp only [readItemsLinesV2, readByte, Bind.bind, Except.bind]
    rw [if_neg h1, if_neg h2]
  · intro hmem
    simp only [List.mem_cons, List.not_mem_nil, or_false] at hmem
    push_neg at hmem
    obtain ⟨h0, h1, h247, h255, h248, h249, h250, h251, h252⟩ := hmem
    simp only [readCellV2, readByte, Bind.bind, Except.bind]
    rw [if_neg h0, if_neg h1, if_neg h247, if_neg h255, if_neg h248,
      if_neg h249, if_neg h250, if_neg h251, if_neg h252]

/-- Witness for C8 on concrete bad bytes: wrong magic, version byte 9,
marker byte 42, cell tag 66. -/
theorem claim_C8_fatal_errors_witness :
    decompressMin [88, 88, 88] = .error "Invalid MIN format file" ∧
    decompressMin [77, 73, 78, 70, 77, 84, 9, 1] =
      .error "Unsupported MIN format version" ∧
    readItemsRowsV2 [] [] 1 [] [42, 0] = .error "Unknown data marker" ∧
    readItemsLinesV2 [] 1 [] [42, 0] = .error "Unknown data marker" ∧
    readCellV2 [] false none 0 [66, 0] =
      .error "Unknown cell encoding flag" := by
  have h := claim_C8_fatal_errors [77, 73, 78, 70, 77, 84, 9, 1] 9 [1] [0]
    42 [] [] [] [] 0 false none 0
  have h2 := claim_C8_fatal_errors [88, 88, 88] 9 [1] [0]
    66 [] [] [] [] 0 false none 0
  exact ⟨h2.1 (by decide), h.2.1 rfl rfl (by decide) (by decide),
    h.2.2.1 (by decide) (by decide), h.2.2.2.1 (by decide) (by decide),
    h2.2.2.2.2 (by decide)⟩

/-! ### Version-1 containers decode to their content (C9) -/

theorem exceptBind_ok {ε α β : Type} (a : α) (f : α → Except ε β) :
    (Except.ok a : Except ε α) >>= f = f a := rfl

theorem readCellV1_bytes (dict : List Bytes) (c : V1Cell) (rest : List Nat)
    (hd35 : dict.length < 2 ^ 35) (hv : c.valid dict) :
    readCellV1 dict (v1CellBytes c ++ rest) = .ok (v1Resolve dict c, rest) := by
  cases c with
  | empty => exact absurd hv (by simp [V1Cell.valid])
  | raw s =>
    show readCellV1 dict ((0 :: (writeVarintNat s.length ++ s)) ++ rest) = _
    simp only [List.cons_append, readCellV1, readByte, exceptBind_ok]
    rw [if_neg (by norm_num)]
    rw [List.append_assoc, readVarint_writeVarintNat s.length (s ++ rest) hv]
    simp [exceptBind_ok, List.take_left, List.drop_left, v1Resolve]
  | ref i =>
    show readCellV1 dict ((255 :: writeVarintNat i) ++ rest) = _
    simp only [List.cons_append, readCellV1, readByte, exceptBind_ok]
    simp only [if_true, eq_self_iff_true]
    have hi : i < dict.length := hv
    rw [readVarint_writeVarintNat i rest (lt_trans hi hd35)]
    simp only [exceptBind_ok]
    have hsome : dict.get? i = some (dict.getD i []) := by
      simp only [V1Cell.valid] at hv
      rw [List.getD_eq_getElem _ _ hv, List.get?_eq_getElem?,
        List.getElem?_eq_getElem hv]
    rw [hsome]
    rfl

theorem readDictLoop_bytes (entries : List Bytes) :
    ∀ (acc : List Bytes) (rest : List Nat),
      (∀ s ∈ entries, s.length < 2 ^ 35) →
      readDictLoop entries.length acc
        ((entries.map fun s => writeVarintNat s.length ++ s).flatten ++ rest) =
        .ok (acc ++ entries, rest) := by
  induction entries with
  | nil => intro acc rest _; simp [readDictLoop]
  | cons e es ih =>
    intro acc rest hlen
    simp only [List.map_cons, List.flatten_cons, List.length_cons,
      List.append_assoc]
    simp only [readDictLoop]
    rw [readVarint_writeVarintNat e.length _
      (hlen e (List.mem_cons_self _ _))]
    simp only [exceptBind_ok]
    rw [List.take_left, List.drop_left]
    rw [ih (acc ++ [e]) rest (fun s hs => hlen s (List.mem_cons_of_mem _ hs))]
    simp [exceptBind_ok]

theorem readRowCellsV1_bytes (dict : List Bytes) (row : List V1Cell)
    (hd35 : dict.length < 2 ^ 35) :
    ∀ rest : List Nat, (∀ c ∈ row, c.valid dict) →
      readRowCellsV1 dict row.length ((row.map v1CellBytes).flatten ++ rest) =
        .ok (row.map (v1Resolve dict), rest) := by
  induction row with
  | nil => intro rest _; simp [readRowCellsV1]
  | cons c cs ih =>
    intro rest hc
    simp only [List.map_cons, List.flatten_cons, List.length_cons,
      List.append_assoc]
    simp only [readRowCellsV1]
    rw [readCellV1_bytes dict c _ hd35 (hc c (List.mem_cons_self _ _))]
    simp only [exceptBind_ok]
    rw [ih rest (fun x h => hc x (List.mem_cons_of_mem _ h))]
    simp only [exceptBind_ok]

theorem readRowsV1_bytes (dict : List Bytes) (rows : List (List V1Cell))
    (hd35 : dict.length < 2 ^ 35) :
    ∀ (acc : List (List Bytes)) (rest : List Nat),
      (∀ row ∈ rows, row.length < 2 ^ 35) →
      (∀ row ∈ rows, ∀ c ∈ row, c.valid dict) →
      readRowsV1 dict rows.length acc
        ((rows.map fun row =>
          writeVarintNat row.length ++ (row.map v1CellBytes).flatten).flatten
          ++ rest) =
        .ok (acc ++ rows.map (List.map (v1Resolve dict)), rest) := by
  induction rows with
  | nil => intro acc rest _ _; simp [readRowsV1]
  | cons row rs ih =>
    intro acc rest hlen hcells
    simp only [List.map_cons, List.flatten_cons, List.length_cons,
      List.append_assoc]
    simp only [readRowsV1]
    rw [readVarint_writeVarintNat row.length _
      (hlen row (List.mem_cons_self _ _))]
    simp only [exceptBind_ok]
    rw [readRowCellsV1_bytes dict row hd35 _
      (hcells row (List.mem_cons_self _ _))]
    simp only [exceptBind_ok]
    rw [ih (acc ++ [row.map (v1Resolve dict)]) rest
      (fun r h => hlen r (List.mem_cons_of_mem _ h))
      (fun r h => hcells r (List.mem_cons_of_mem _ h))]
    simp [exceptBind_ok]

theorem readLinesV1_bytes (dict : List Bytes) (ls : List V1Cell)
    (hd35 : dict.length < 2 ^ 35) :
    ∀ (acc : List Bytes) (rest : List Nat), (∀ c ∈ ls, c.valid dict) →
      readLinesV1 dict ls.length acc ((ls.map v1CellBytes).flatten ++ rest) =
        .ok (acc ++ ls.map (v1Resolve dict), rest) := by
  induction ls with
  | nil => intro acc rest _; simp [readLinesV1]
  | cons c cs ih =>
    intro acc rest hc
    simp only [List.map_cons, List.flatten_cons, List.length_cons,
      List.append_assoc]
    simp only [readLinesV1]
    rw [readCellV1_bytes dict c _ hd35 (hc c (List.mem_cons_self _ _))]
    simp only [exceptBind_ok]
    rw [ih (acc ++ [v1Resolve dict c]) rest
      (fun x h => hc x (List.mem_cons_of_mem _ h))]
    simp [exceptBind_ok]

/-- Claim C9 (amended): every version-1 container whose cells use only the
RawString and DictRef tags — raw strings and the dictionary within varint
range, references in range of the dictionary — decodes through the same
`decompress_min` entry point to exactly its rows (row mode) or lines
(line mode).  The Empty tag is excluded: see the counterexample, where the
v1 branch misparses it as a raw-string marker. -/
theorem claim_C9_v1_decode (dict : List Bytes) (rows : List (List V1Cell))
    (ls : List V1Cell)
    (hdlen : dict.length < 2 ^ 35) (hdent : ∀ s ∈ dict, s.length < 2 ^ 35)
    (hrlen : rows.length < 2 ^ 35) (hrow : ∀ row ∈ rows, row.length < 2 ^ 35)
    (hcells : ∀ row ∈ rows, ∀ c ∈ row, c.valid dict)
    (hllen : ls.length < 2 ^ 35) (hlcells : ∀ c ∈ ls, c.valid dict) :
    decompressMin (v1ContainerRows dict rows) =
      .ok (.rows (rows.map (List.map (v1Resolve dict))), true) ∧
    decompressMin (v1ContainerLines dict ls) =
      .ok (.lines (ls.map (v1Resolve dict)), false) := by
  constructor
  · have hassoc : v1ContainerRows dict rows =
        magicBytes ++ (1 :: 1 :: (writeVarintNat dict.length ++
          ((dict.map fun s => writeVarintNat s.length ++ s).flatten ++
            (writeVarintNat rows.length ++
              (rows.map fun row => writeVarintNat row.length ++
                (row.map v1CellBytes).flatten).flatten)))) := by
      simp [v1ContainerRows, dictSection]
    rw [hassoc]
    unfold decompressMin
    rw [if_neg (by rw [take_magic]; simp), drop_magic]
    simp only [readByte, exceptBind_ok]
    norm_num
    rw [readVarint_writeVarintNat dict.length _ hdlen]
    simp only [exceptBind_ok]
    rw [readDictLoop_bytes dict [] _ hdent]
    simp only [exceptBind_ok, List.nil_append]
    rw [readVarint_writeVarintNat rows.length _ hrlen]
    simp only [exceptBind_ok]
    nth_rewrite 1 [show (rows.map fun row => writeVarintNat row.length ++
        (row.map v1CellBytes).flatten).flatten =
      (rows.map fun row => writeVarintNat row.length ++
        (row.map v1CellBytes).flatten).flatten ++ []
      from (List.append_nil _).symm]
    rw [readRowsV1_bytes dict rows hdlen [] [] hrow hcells]
    simp only [exceptBind_ok, List.nil_append]
  · have hassoc : v1ContainerLines dict ls =
        magicBytes ++ (1 :: 0 :: (writeVarintNat dict.length ++
          ((dict.map fun s => writeVarintNat s.length ++ s).flatten ++
            (writeVarintNat ls.length ++ (ls.map v1CellBytes).flatten)))) := by
      simp [v1ContainerLines, dictSection]
    rw [hassoc]
    unfold decompressMin
    rw [if_neg (by rw [take_magic]; simp), drop_magic]
    simp only [readByte, exceptBind_ok]
    norm_num
    rw [readVarint_writeVarintNat dict.length _ hdlen]
    simp only [exceptBind_ok]
    rw [readDictLoop_bytes dict [] _ hdent]
    simp only [exceptBind_ok, List.nil_append]
    rw [readVarint_writeVarintNat ls.length _ hllen]
    simp only [exceptBind_ok]
    nth_rewrite 1 [show (ls.map v1CellBytes).flatten =
        (ls.map v1CellBytes).flatten ++ [] from (List.append_nil _).symm]
    rw [readLinesV1_bytes dict ls hdlen [] [] hlcells]
    simp only [exceptBind_ok, List.nil_append]

/-- Witness for C9 on a concrete container: dictionary `["dict"]`, rows
`[[Raw "a", Ref 0], [Raw "", Raw "bc"]]` and lines `[Raw "a", Ref 0]`. -/
theorem claim_C9_v1_decode_witness :
    decompressMin (v1ContainerRows [[100, 105, 99, 116]]
      [[.raw [97], .ref 0], [.raw [], .raw [98, 99]]]) =
      .ok (.rows [[[97], [100, 105, 99, 116]], [[], [98, 99]]], true) ∧
    decompressMin (v1ContainerLines [[100, 105, 99, 116]]
      [.raw [97], .ref 0]) =
      .ok (.lines [[97], [100, 105, 99, 116]], false) := by
  have h := claim_C9_v1_decode [[100, 105, 99, 116]]
    [[.raw [97], .ref 0], [.raw [], .raw [98, 99]]]
    [.raw [97], .ref 0]
    (by norm_num) (by decide) (by norm_num) (by decide)
    (by decide) (by norm_num) (by decide)
  exact ⟨h.1, h.2⟩

end MinFmt
